import Mathlib

/-!
Verification development for the OpenNARS-Node core.

The definitions below are a shallow embedding, in Lean 4, of the TypeScript
sources of the repository.  Machine floating-point arithmetic is idealised as
rational arithmetic; the 4-digit fixed-point discipline of ShortFloat
(the only rounding the core applies to truth and budget components) is kept
exactly.  JavaScript Map and Set objects are modelled as association lists and
lists preserving insertion order, matching the iteration order guarantees of
the language.  Mutation is modelled by explicit state passing.
-/

namespace NARS

/-- JS Math.round for the non-negative values used by ShortFloat:
round half toward positive infinity, i.e. floor of x + 1/2. -/
def jsRound (q : ℚ) : ℤ := Int.floor (q + 1/2)

/-- Embeds ShortFloat (nalCorePrimitives/RuleFunctions ShortFloat class): a
value in the unit interval stored as an integer 0..10000.  The constructor and
setValue reject values outside the unit interval (they throw), so the stored
integer is in fact non-negative; all values fed to the model below lie inside
the interval. -/
structure ShortFloat where
  val : ℤ
deriving DecidableEq, Repr

/-- ShortFloat construction: value = Math.round(v * 10000). -/
def ShortFloat.ofQ (v : ℚ) : ShortFloat := ⟨jsRound (v * 10000)⟩

/-- ShortFloat.getValue: value * 0.0001. -/
def ShortFloat.getValue (sf : ShortFloat) : ℚ := (sf.val : ℚ) / 10000

/-- ShortFloat.setValue has the same body as the constructor. -/
def ShortFloat.setValue (_sf : ShortFloat) (v : ℚ) : ShortFloat := ShortFloat.ofQ v

/-- MathFunctions.or: probabilistic OR, 1 - prod (1 - x). -/
def MathFunctions.or2 (a b : ℚ) : ℚ := 1 - (1 - a) * (1 - b)

/-- MathFunctions.and: probabilistic AND, prod x. -/
def MathFunctions.and2 (a b : ℚ) : ℚ := a * b

/-- MathFunctions.average for two arguments. -/
def MathFunctions.average2 (a b : ℚ) : ℚ := (a + b) / 2

/-- MathFunctions.mean for two arguments. -/
def MathFunctions.mean2 (a b : ℚ) : ℚ := (a + b) / 2

/-- Embeds Budget (nalCorePrimitives): priority, durability, quality as
ShortFloats.  The setters go through ShortFloat.setValue, i.e. they round to
four digits. -/
structure Budget where
  priority : ShortFloat
  durability : ShortFloat
  quality : ShortFloat
deriving DecidableEq, Repr

/-- Budget construction from three rationals (the p, d, q branch of the
constructor). -/
def Budget.ofQ (p d q : ℚ) : Budget :=
  ⟨ShortFloat.ofQ p, ShortFloat.ofQ d, ShortFloat.ofQ q⟩

def Budget.priorityQ (b : Budget) : ℚ := b.priority.getValue

def Budget.durabilityQ (b : Budget) : ℚ := b.durability.getValue

def Budget.qualityQ (b : Budget) : ℚ := b.quality.getValue

/-- Budget priority setter (goes through ShortFloat.setValue). -/
def Budget.setPriority (b : Budget) (v : ℚ) : Budget :=
  { b with priority := b.priority.setValue v }

def Budget.setDurability (b : Budget) (v : ℚ) : Budget :=
  { b with durability := b.durability.setValue v }

def Budget.setQuality (b : Budget) (v : ℚ) : Budget :=
  { b with quality := b.quality.setValue v }

/-- Budget.summary: durability * (priority + quality) / 2. -/
def Budget.summary (b : Budget) : ℚ :=
  b.durabilityQ * (b.priorityQ + b.qualityQ) / 2

/-- Embeds Truth (nalCorePrimitives): frequency and confidence as ShortFloats.
The field k is initialised to 1 and never reassigned anywhere in the sources,
so the evidential horizon is the constant 1 below. -/
structure Truth where
  frequency : ShortFloat
  confidence : ShortFloat
deriving DecidableEq, Repr

def Truth.k : ℚ := 1

def Truth.getFrequency (t : Truth) : ℚ := t.frequency.getValue

def Truth.getConfidence (t : Truth) : ℚ := t.confidence.getValue

/-- Truth.getExpectation: c * (f - 0.5) + 0.5. -/
def Truth.getExpectation (t : Truth) : ℚ :=
  t.getConfidence * (t.getFrequency - 1/2) + 1/2

namespace TruthFunctions

/-- TruthFunctions.fc_to_w_plus: k * f * c / (1 - c). -/
def fc_to_w_plus (frequency confidence k : ℚ) : ℚ :=
  k * frequency * confidence / (1 - confidence)

/-- TruthFunctions.fc_to_w_minus: k * (1 - f) * c / (1 - c). -/
def fc_to_w_minus (frequency confidence k : ℚ) : ℚ :=
  k * (1 - frequency) * confidence / (1 - confidence)

/-- TruthFunctions.w_to_f: w+ / w, or 0.5 when w = 0. -/
def w_to_f (positiveWeight totalWeight : ℚ) : ℚ :=
  if totalWeight ≠ 0 then positiveWeight / totalWeight else 1/2

/-- TruthFunctions.w_to_c: w / (w + k), or 0 when w = 0. -/
def w_to_c (totalWeight k : ℚ) : ℚ :=
  if totalWeight ≠ 0 then totalWeight / (totalWeight + k) else 0

/-- TruthFunctions.truth_from_w: new Truth(ShortFloat f, ShortFloat c). -/
def truth_from_w (positiveWeight totalWeight k : ℚ) : Truth :=
  ⟨ShortFloat.ofQ (w_to_f positiveWeight totalWeight),
   ShortFloat.ofQ (w_to_c totalWeight k)⟩

/-- TruthFunctions.revision: combine evidence weights of the two truths and
convert back; the horizon used for the result is k of the first truth. -/
def revision (truthOne truthTwo : Truth) : Truth :=
  let frequency1 := truthOne.getFrequency
  let confidence1 := truthOne.getConfidence
  let k1 := Truth.k
  let frequency2 := truthTwo.getFrequency
  let confidence2 := truthTwo.getConfidence
  let k2 := Truth.k
  let positiveWeight1 := fc_to_w_plus frequency1 confidence1 k1
  let positiveWeight2 := fc_to_w_plus frequency2 confidence2 k2
  let negativeWeight1 := fc_to_w_minus frequency1 confidence1 k1
  let negativeWeight2 := fc_to_w_minus frequency2 confidence2 k2
  let positiveWeight := positiveWeight1 + positiveWeight2
  let negativeWeight := negativeWeight1 + negativeWeight2
  let totalWeight := positiveWeight + negativeWeight
  truth_from_w positiveWeight totalWeight k1

/-- TruthFunctions.eternalize: same frequency, confidence c / (c + k). -/
def eternalize (truth : Truth) : Truth :=
  let confidence := truth.getConfidence
  let k := Truth.k
  let newConfidence := confidence / (confidence + k)
  ⟨ShortFloat.ofQ truth.getFrequency, ShortFloat.ofQ newConfidence⟩

/-- TruthFunctions.truthToQuality: max(e, (1 - e) * 0.75). -/
def truthToQuality (truth : Truth) : ℚ :=
  let expectation := truth.getExpectation
  max expectation ((1 - expectation) * (3/4))

end TruthFunctions

namespace BudgetFunctions

/-- BudgetFunctions.merge: base.priority becomes the adjuster priority,
durability and quality become the maxima; each assignment goes through the
ShortFloat setter. -/
def merge (base adjuster : Budget) : Budget :=
  ((base.setPriority adjuster.priorityQ).setDurability
      (max (base.setPriority adjuster.priorityQ).durabilityQ adjuster.durabilityQ)).setQuality
    (max ((base.setPriority adjuster.priorityQ).setDurability
      (max (base.setPriority adjuster.priorityQ).durabilityQ adjuster.durabilityQ)).qualityQ
      adjuster.qualityQ)

/-- BudgetFunctions.forget: decay the priority toward quality * 0.3 using the
decay exponent d^(1/(C*|p-q|)).  Math.pow is binary floating point in the
source; it enters the model as the explicit function argument jsPow. -/
def forget (jsPow : ℚ → ℚ → ℚ) (budget : Budget) (forgetRate relThreshold : ℚ) : Budget :=
  let q := budget.qualityQ * (3/10)
  let c := forgetRate
  let p := budget.priorityQ
  let d := budget.durabilityQ
  let diff := p - q
  if |diff| < relThreshold then budget
  else budget.setPriority (q + diff * jsPow d (1 / (c * |diff|)))

/-- BudgetFunctions.revision with replace = true and no link budgets (the call
shape used by Concept.localRevision).  Returns the fresh derived budget and
the task budget mutated in place. -/
def revision (budgetTask : Budget) (truthTask truthBelief truthDerived : Option Truth) :
    Budget × Budget :=
  match truthDerived with
  | none => (budgetTask, budgetTask)
  | some derived =>
    let expDerived := derived.getExpectation
    let expTask := match truthTask with | some t => t.getExpectation | none => expDerived
    let diffTask := |expTask - expDerived|
    let taskBudget := budgetTask.setPriority (MathFunctions.and2 budgetTask.priorityQ (1 - diffTask))
    let taskBudget := taskBudget.setDurability (MathFunctions.and2 taskBudget.durabilityQ (1 - diffTask))
    let confTask := match truthTask with | some t => t.getConfidence | none => 0
    let confBelief := match truthBelief with | some t => t.getConfidence | none => 0
    let diff := derived.getConfidence - max confTask confBelief
    let priority := MathFunctions.or2 diff taskBudget.priorityQ
    let durability := MathFunctions.average2 diff taskBudget.durabilityQ
    let quality := TruthFunctions.truthToQuality derived
    (Budget.ofQ priority durability quality, taskBudget)

end BudgetFunctions


-- ===================================================================
-- Term model (nalCorePrimitives Term / Statement)
-- ===================================================================

/-- Embeds the Term tree of nalCorePrimitives for the fragment the
concept-level claims exercise: atomic terms (with their variable marker, the
third constructor argument of Term) and binary statements.  Canonical name,
complexity and the variable flags follow the Term and Statement
constructors. -/
inductive NTerm where
  | atom (nm : String) (variableMark : String)
  | statement (subject : NTerm) (copula : String) (predicate : NTerm)
deriving DecidableEq, Repr

/-- Term.name / Term.toString: a Statement prints as the template literal
of its constructor, with no spaces around the copula. -/
def NTerm.name : NTerm → String
  | .atom nm _ => nm
  | .statement s c p => "<" ++ s.name ++ c ++ p.name ++ ">"

/-- Term.complexity: an atom has complexity 1; the Statement constructor adds
the complexities of subject and predicate to its own initial 1. -/
def NTerm.complexity : NTerm → ℕ
  | .atom _ _ => 1
  | .statement s _ p => 1 + s.complexity + p.complexity

/-- Term.hasQueryVariable reads the flag set by the Term constructor from the
variable marker; Statement does not override it and passes an empty marker to
its super constructor, so statements carry false. -/
def NTerm.hasQueryVariable : NTerm → Bool
  | .atom _ v => v = "?"
  | .statement _ _ _ => false

/-- Term.hasDependantVariable, same flag discipline as hasQueryVariable. -/
def NTerm.hasDependantVariable : NTerm → Bool
  | .atom _ v => v = "#"
  | .statement _ _ _ => false

/-- Term.temporalOrder: the getter returns ORDER_NONE = 2 unconditionally. -/
def NTerm.temporalOrder (_t : NTerm) : ℤ := 2

def NTerm.isStatement : NTerm → Bool
  | .statement _ _ _ => true
  | _ => false

-- ===================================================================
-- Stamps (nalCorePrimitives Stamp / BaseEntry)
-- ===================================================================

namespace Parameters

def BUDGET_THRESHOLD : ℚ := 1/100

def REVISION_MAX_OCCURRENCE_DISTANCE : ℤ := 10

def CONCEPT_QUESTIONS_MAX : ℕ := 5

def CONCEPT_GOALS_MAX : ℕ := 7

def CONCEPT_BELIEFS_MAX : ℕ := 28

def MAXIMUM_EVIDENTIAL_BASE_LENGTH : ℕ := 20000

def DURATION : ℤ := 5

def TERM_LINK_RECORD_LENGTH : ℕ := 10

end Parameters

/-- Stamp.ETERNAL = INT32_MIN. -/
def stampETERNAL : ℤ := -2147483648

/-- Decimal digit rendering (the JS template literal for numbers), written
with explicit fuel so that it reduces in the kernel. -/
def natDecimalAux : ℕ → ℕ → List Char
  | 0, _ => []
  | fuel + 1, n =>
    if n = 0 then []
    else natDecimalAux fuel (n / 10) ++ [Char.ofNat (48 + n % 10)]

def natDecimal (n : ℕ) : String :=
  if n = 0 then "0" else String.mk (natDecimalAux (n + 1) n)

def intDecimal (i : ℤ) : String :=
  if i < 0 then "-" ++ natDecimal i.natAbs else natDecimal i.natAbs

/-- Embeds BaseEntry: a (narId, inputId) pair whose toString is
(narId,inputId). -/
structure BaseEntry where
  narId : ℤ
  inputId : ℕ
deriving DecidableEq, Repr

def BaseEntry.str (e : BaseEntry) : String :=
  "(" ++ intDecimal e.narId ++ "," ++ natDecimal e.inputId ++ ")"

/-- Embeds Stamp: evidential base, creation time, occurrence time, tense (a
tense is one of the four marker strings). -/
structure NStamp where
  evidentialBase : List BaseEntry
  creationTime : ℤ
  occurrenceTime : ℤ
  tense : Option String
deriving DecidableEq, Repr

def NStamp.isEternal (s : NStamp) : Bool := s.occurrenceTime = stampETERNAL

/-- The |0 truncation of the hash loop: wrap to signed 32 bits. -/
def int32 (x : ℤ) : ℤ := (x + 2 ^ 31) % 2 ^ 32 - 2 ^ 31

/-- JS Array.prototype.sort default comparator: ascending lexicographic
comparison by UTF-16 code units, which for the data at hand coincides with
the Lean String order.  Insertion sort suffices as a model: distinct strings
are totally ordered, so any sorted rearrangement is unique. -/
def insertSorted (x : String) : List String → List String
  | [] => [x]
  | y :: ys => if x ≤ y then x :: y :: ys else y :: insertSorted x ys

def sortStrings (l : List String) : List String := l.foldr insertSorted []

/-- Stamp.evidentialHash: fold hash = (hash * 31 + charCode) | 0 over the
sorted entry strings. -/
def NStamp.evidentialHash (s : NStamp) : ℤ :=
  let baseStrings := sortStrings (s.evidentialBase.map BaseEntry.str)
  baseStrings.foldl (fun h str => str.data.foldl (fun h c => int32 (h * 31 + c.toNat)) h) 0

/-- Stamp.equals with its three check switches.  The reference-identity
shortcut of the source is subsumed by value equality here. -/
def NStamp.equals (a b : NStamp)
    (creationTimeCheck occurrenceTimeCheck evidentialBaseCheck : Bool) : Bool :=
  if creationTimeCheck && a.creationTime != b.creationTime then false
  else if occurrenceTimeCheck && a.occurrenceTime != b.occurrenceTime then false
  else if evidentialBaseCheck && a.evidentialHash != b.evidentialHash then false
  else true

/-- Stamp.baseOverlap: true when the entry strings of the two bases share an
element (empty bases never overlap). -/
def NStamp.baseOverlap (a b : NStamp) : Bool :=
  let base1 := a.evidentialBase
  let base2 := b.evidentialBase
  if base1.isEmpty || base2.isEmpty then false
  else base2.any (fun e => (base1.map BaseEntry.str).contains e.str)

/-- Stamp.calculateOccurrenceTime from creation time, tense and duration. -/
def calculateOccurrenceTime (time : ℤ) (tense : Option String) (duration : ℤ) : ℤ :=
  match tense with
  | none => stampETERNAL
  | some t =>
    if t = ":-:" then stampETERNAL
    else if t = ":\\:" then time - duration
    else if t = ":/:" then time + duration
    else time

-- ===================================================================
-- Sentences, tasks, concepts
-- ===================================================================

/-- Embeds Sentence (the data shared by Judgement and Question): term,
punctuation mark, optional truth, stamp. -/
structure NSentence where
  term : NTerm
  punctuation : String
  truth : Option Truth
  stamp : NStamp
deriving DecidableEq, Repr

def NSentence.isJudgement (s : NSentence) : Bool := s.punctuation = "."

def NSentence.isQuestion (s : NSentence) : Bool := s.punctuation = "?"

/-- Sentence.isRevisable: copula is inheritance or equivalence, or the term
has no dependent variable.  On a non-statement term the source dereferences
the copula of undefined and faults; no embedded call reaches that branch, and
it is modelled by the surviving disjunct. -/
def NSentence.isRevisable (s : NSentence) : Bool :=
  match s.term with
  | .statement _ c _ => c = "-->" || c = "<=>" || !s.term.hasDependantVariable
  | .atom _ _ => !s.term.hasDependantVariable

/-- Embeds Task: sentence, budget, achievement slot (initially null). -/
structure NTask where
  sentence : NSentence
  budget : Budget
  achievement : Option ℚ
deriving DecidableEq, Repr

/-- The Judgement constructor as invoked with an explicit stamp.  With a null
stamp the source would mint a fresh stamp from a random nar-id and the next
global serial; no embedded call passes null, and the fallback is modelled
with a zero entry. -/
def mkJudgement (term : NTerm) (truth : Truth) (tense : Option String)
    (stamp : Option NStamp) : NSentence :=
  match stamp with
  | some st => { term := term, punctuation := ".", truth := some truth, stamp := st }
  | none =>
    { term := term, punctuation := ".", truth := some truth,
      stamp := { evidentialBase := [⟨0, 0⟩], creationTime := -1,
                 occurrenceTime := calculateOccurrenceTime (-1) tense Parameters.DURATION,
                 tense := tense } }

/-- RuleFunctions.revisable. -/
def RuleFunctions.revisable (sentenceOne sentenceTwo : NSentence) : Bool :=
  if !sentenceOne.stamp.isEternal && !sentenceTwo.stamp.isEternal
      && (|sentenceOne.stamp.occurrenceTime - sentenceTwo.stamp.occurrenceTime| >
            Parameters.REVISION_MAX_OCCURRENCE_DISTANCE) then false
  else if !sentenceOne.isRevisable then false
  else if sentenceOne.term.temporalOrder != sentenceTwo.term.temporalOrder
      && sentenceOne.term.temporalOrder != 2 && sentenceTwo.term.temporalOrder != 2 then false
  else if NStamp.baseOverlap sentenceOne.stamp sentenceTwo.stamp then false
  else true

/-- RuleFunctions.solutionQuality at rateOfConfidence = true, the only call
shape the embedded paths reach (Concept.selectCandidate always passes true).
The false branch of the source divides the expectation by the eighth root of
the complexity, an irrational operation that no modelled claim touches. -/
def RuleFunctions.solutionQualityConf (problem : NTask) (solution : NSentence) : ℚ :=
  if (problem.sentence.punctuation != solution.punctuation) && solution.term.hasQueryVariable
  then 0
  else match solution.truth with
    | none => 0
    | some t => t.getConfidence

/-- lodash zip followed by flatten and a truthiness filter, as used by
StampFunctions.revision to interleave two evidential bases. -/
def zipInterleave {α : Type} : List α → List α → List α
  | [], [] => []
  | [], y :: ys => y :: zipInterleave [] ys
  | x :: xs, [] => x :: zipInterleave xs []
  | x :: xs, y :: ys => x :: y :: zipInterleave xs ys

/-- StampFunctions.revision: interleave the bases into a clone of the first
stamp, truncate, stamp the current clock as creation time, and combine the
occurrence times. -/
def StampFunctions.revision (clock : ℤ) (stampOne stampTwo : Option NStamp)
    (orderMark : Option String) (reverseOrder : Bool) (tBias : ℤ) : Option NStamp :=
  match stampOne, stampTwo with
  | some stampOne, some stampTwo =>
    let interleaved := zipInterleave stampOne.evidentialBase stampTwo.evidentialBase
    let stamp := { stampOne with
      evidentialBase := interleaved.take Parameters.MAXIMUM_EVIDENTIAL_BASE_LENGTH,
      creationTime := clock }
    let stamp :=
      if !stampOne.isEternal && !stampTwo.isEternal then
        { stamp with occurrenceTime := max stampOne.occurrenceTime stampTwo.occurrenceTime }
      else stamp
    let stamp :=
      if !stampOne.isEternal then
        let interval : ℤ :=
          match orderMark with
          | some m =>
            if m = "&/" || m = "=/>" || m = "</>" then Parameters.DURATION
            else if m = "=\\>" then -Parameters.DURATION
            else 0
          | none => 0
        let interval := if reverseOrder then -interval else interval
        { stamp with occurrenceTime := stamp.occurrenceTime + interval + tBias }
      else stamp
    some stamp
  | _, _ => none

/-- Embeds Concept for the concept-local claims: its term, budget, and the
belief and question lists.  The goal and link sub-structures play no role in
those claims and are carried by the reasoner-level model instead. -/
structure Concept where
  term : NTerm
  budget : Budget
  beliefs : List NTask
  questions : List NTask
deriving DecidableEq, Repr

/-- The Concept constructor: key is term.name, lists start empty. -/
def Concept.create (term : NTerm) (budget : Budget) : Concept :=
  { term := term, budget := budget, beliefs := [], questions := [] }

/-- Concept.addQuestion: when the list already holds CONCEPT_GOALS_MAX
entries, shift out the oldest, then push.  Note that the source caps with
CONCEPT_GOALS_MAX = 7, not with CONCEPT_QUESTIONS_MAX = 5. -/
def Concept.addQuestion (c : Concept) (task : NTask) : Concept :=
  let qs :=
    if Parameters.CONCEPT_GOALS_MAX ≤ c.questions.length then c.questions.drop 1
    else c.questions
  { c with questions := qs ++ [task] }

/-- Concept.calcTaskAchievement. -/
def Concept.calcTaskAchievement (t1 t2 : Option Truth) : ℚ :=
  match t1 with
  | none => (t2.getD ⟨⟨0⟩, ⟨0⟩⟩).getExpectation
  | some u => |u.getExpectation - (t2.getD ⟨⟨0⟩, ⟨0⟩⟩).getExpectation|

/-- Concept.selectCandidate: the argmax under solutionQuality with
rateOfConfidence = true; strict improvement over an initial best of 0. -/
def Concept.selectCandidate (_newTask : NTask) (list : List NTask) : Option NTask :=
  (list.foldl
    (fun (acc : ℚ × Option NTask) task =>
      let beliefQuality := RuleFunctions.solutionQualityConf task task.sentence
      if acc.1 < beliefQuality then (beliefQuality, some task) else acc)
    (0, none)).2

/-- Concept.localRevision.  Returns the pair (returned task, incoming task
after the in-place budget mutation performed by BudgetFunctions.revision with
replace = true). -/
def Concept.localRevision (clock : ℤ) (task belief : NTask) : NTask × NTask :=
  match task.sentence.truth, belief.sentence.truth with
  | some truthTask, some truthBelief =>
    let truthDerived := TruthFunctions.revision truthTask truthBelief
    let pair := BudgetFunctions.revision task.budget (some truthTask) (some truthBelief)
      (some truthDerived)
    let budgetDerived := pair.1
    let task := { task with budget := pair.2 }
    let stampDerived := StampFunctions.revision clock (some task.sentence.stamp)
      (some belief.sentence.stamp) none false 0
    if task.sentence.isJudgement then
      ({ sentence := mkJudgement task.sentence.term truthDerived
            (stampDerived.bind NStamp.tense) stampDerived,
         budget := budgetDerived, achievement := none }, task)
    else (task, task)
  | _, _ => (task, task)

/-- Concept.processJudgment.  The Task built by localRevision is discarded by
the source (the call result is not used); what survives are the in-place
mutation of the incoming task budget and the achievement assignment, and the
task appended to the beliefs still carries its original, unrevised truth. -/
def Concept.processJudgment (clock : ℤ) (c : Concept) (newTask : NTask) : Concept :=
  match Concept.selectCandidate newTask c.beliefs with
  | some belief =>
    if NStamp.equals newTask.sentence.stamp belief.sentence.stamp false true true then c
    else
      let newTask :=
        if RuleFunctions.revisable newTask.sentence belief.sentence then
          let t := (Concept.localRevision clock newTask belief).2
          let ach := Concept.calcTaskAchievement t.sentence.truth belief.sentence.truth
          { t with achievement := some ach }
        else newTask
      if Parameters.BUDGET_THRESHOLD < newTask.budget.summary then
        { c with beliefs := c.beliefs ++ [newTask] }
      else c
  | none =>
    if Parameters.BUDGET_THRESHOLD < newTask.budget.summary then
      { c with beliefs := c.beliefs ++ [newTask] }
    else c


-- ===================================================================
-- Concrete scenario data for the concept-level claims
-- ===================================================================

/-- The statement term of the end-to-end revision scenario; its canonical
name is the bracketed print of subject, copula, predicate. -/
def birdFly : NTerm := .statement (.atom "bird" "") "-->" (.atom "fly" "")

/-- Stamp of the first input judgment: evidence entry (1, 0), eternal. -/
def birdFlyStampOne : NStamp :=
  { evidentialBase := [⟨1, 0⟩], creationTime := 0,
    occurrenceTime := stampETERNAL, tense := none }

/-- Stamp of the second input judgment: the distinct evidence entry (2, 1). -/
def birdFlyStampTwo : NStamp :=
  { evidentialBase := [⟨2, 1⟩], creationTime := 1,
    occurrenceTime := stampETERNAL, tense := none }

/-- First input: the judgment with truth (0.9, 0.9), default judgment budget
(priority 0.8, durability 0.5) and quality from truthToQuality. -/
def birdFlyTaskOne : NTask :=
  { sentence :=
      { term := birdFly, punctuation := ".", truth := some ⟨⟨9000⟩, ⟨9000⟩⟩,
        stamp := birdFlyStampOne },
    budget := ⟨⟨8000⟩, ⟨5000⟩, ⟨8600⟩⟩, achievement := none }

/-- Second input: the judgment with truth (0.8, 0.8). -/
def birdFlyTaskTwo : NTask :=
  { sentence :=
      { term := birdFly, punctuation := ".", truth := some ⟨⟨8000⟩, ⟨8000⟩⟩,
        stamp := birdFlyStampTwo },
    budget := ⟨⟨8000⟩, ⟨5000⟩, ⟨7400⟩⟩, achievement := none }

/-- The concept for the statement term after Concept.processJudgment has run
on both inputs (clock 0, then clock 1). -/
def birdFlyConceptAfter : Concept :=
  Concept.processJudgment 1
    (Concept.processJudgment 0
      (Concept.create birdFly ⟨⟨8000⟩, ⟨5000⟩, ⟨3333⟩⟩) birdFlyTaskOne)
    birdFlyTaskTwo

/-- A question task over an atom, used to exercise Concept.addQuestion. -/
def sampleQuestion (nm : String) : NTask :=
  { sentence :=
      { term := .atom nm "", punctuation := "?", truth := none,
        stamp :=
          { evidentialBase := [⟨0, 0⟩], creationTime := 0,
            occurrenceTime := stampETERNAL, tense := none } },
    budget := ⟨⟨9000⟩, ⟨9000⟩, ⟨100⟩⟩, achievement := none }


-- ===================================================================
-- Distributor
-- ===================================================================

/-- The empty-slot search of the Distributor constructor (the inner while
loop).  Fuel bounds the walk; during construction an empty slot always
exists within capacity steps, so the fuel is never exhausted there. -/
def distributorFindEmpty (order : Array ℤ) : ℕ → ℕ → ℕ
  | 0, index => index
  | fuel + 1, index =>
    if (0 : ℤ) ≤ order.getD index (-1) then
      distributorFindEmpty order fuel ((index + 1) % order.size)
    else index

/-- Embeds the Distributor constructor: capacity = R(R+1)/2 slots initialised
to -1; for key from R-1 down to 0, place the key (key+1) times, advancing the
cursor by capacity / (key+1) and then to the next empty slot. -/
def distributorBuild (rangeVal : ℕ) : Array ℤ :=
  let capacity := rangeVal * (rangeVal + 1) / 2
  let init : Array ℤ := Array.mkArray capacity (-1)
  let step := fun (acc : Array ℤ × ℕ) (key : ℕ) =>
    let time := key + 1
    (List.range time).foldl
      (fun (acc : Array ℤ × ℕ) _ =>
        let index := (capacity / time + acc.2) % capacity
        let index := distributorFindEmpty acc.1 capacity index
        (acc.1.set! index (key : ℤ), index))
      acc
  ((List.range rangeVal).reverse.foldl step (init, 0)).1

/-- Distributor.pick. -/
def Distributor.pick (order : Array ℤ) (index : ℕ) : ℤ := order.getD index (-1)

/-- Distributor.next. -/
def Distributor.next (order : Array ℤ) (index : ℕ) : ℕ := (index + 1) % order.size

-- ===================================================================
-- Bag (the priority bag of part_006)
-- ===================================================================

/-- The virtual Item interface a bag relies on: the key getter (an Option,
since the Link override yields undefined), the budget, budget replacement
(for merge and forgetting), and an identity tag modelling JS object identity
(=== and indexOf). -/
structure BagOps (α : Type) where
  keyOf : α → Option String
  budgetOf : α → Budget
  setBudget : α → Budget → α
  refOf : α → ℕ

/-- The mutable state of a Bag: the name table (a JS Map in insertion order),
the hundred level buckets, and the bookkeeping fields of the class. -/
structure BagState (α : Type) where
  name_table : List (Option String × α)
  item_table : List (List α)
  capacity : ℕ
  forget_rate : ℚ
  mass : ℤ
  level_index : ℕ
  current_level : ℕ
  current_counter : ℕ

namespace Bag

def TOTAL_LEVEL : ℕ := 100

def THRESHOLD : ℕ := 10

def RELATIVE_THRESHOLD : ℚ := (10 : ℚ) / 100

/-- The Bag constructor. -/
def create {α : Type} (capacity : ℕ) (forget_rate : ℚ) : BagState α :=
  { name_table := [], item_table := List.replicate TOTAL_LEVEL [],
    capacity := capacity, forget_rate := forget_rate, mass := 0,
    level_index := capacity % TOTAL_LEVEL, current_level := TOTAL_LEVEL - 1,
    current_counter := 0 }

/-- JS Map get. -/
def mapGet {α : Type} : List (Option String × α) → Option String → Option α
  | [], _ => none
  | (k2, v) :: rest, k => if k2 = k then some v else mapGet rest k

/-- JS Map set: update in place when the key exists, append otherwise. -/
def mapSet {α : Type} : List (Option String × α) → Option String → α → List (Option String × α)
  | [], k, v => [(k, v)]
  | (k2, v2) :: rest, k, v =>
    if k2 = k then (k2, v) :: rest else (k2, v2) :: mapSet rest k v

/-- JS Map delete. -/
def mapDelete {α : Type} : List (Option String × α) → Option String → List (Option String × α)
  | [], _ => []
  | (k2, v2) :: rest, k => if k2 = k then rest else (k2, v2) :: mapDelete rest k

/-- Bag.size: the name table size. -/
def size {α : Type} (b : BagState α) : ℕ := b.name_table.length

/-- Bag.getLevel: ceil(priority * TOTAL_LEVEL) - 1, clamped at 0. -/
def getLevel {α : Type} (ops : BagOps α) (item : α) : ℕ :=
  let level : ℤ := Int.ceil ((ops.budgetOf item).priorityQ * (TOTAL_LEVEL : ℚ)) - 1
  if level < 0 then 0 else level.toNat

/-- Bag.emptyLevel. -/
def emptyLevel {α : Type} (b : BagState α) (n : ℕ) : Bool :=
  (b.item_table.getD n []).isEmpty

/-- Removal of the first list element with a given identity (Array splice at
the indexOf position). -/
def removeFirstBy {α : Type} (p : α → Bool) : List α → List α
  | [] => []
  | x :: xs => if p x then xs else x :: removeFirstBy p xs

/-- Bag.takeOutFirst: pop the head of a level.  The source reads position 0
of the level unconditionally; its call sites guarantee non-emptiness, and the
empty case is signalled with none here. -/
def takeOutFirst {α : Type} (b : BagState α) (level : ℕ) : BagState α × Option α :=
  match b.item_table.getD level [] with
  | [] => (b, none)
  | x :: rest =>
    ({ b with item_table := b.item_table.set level rest,
              mass := b.mass - ((level : ℤ) + 1) }, some x)

/-- Bag.outOfBase: remove the item (by identity) from the level computed from
its current priority; when indexOf misses, nothing changes. -/
def outOfBase {α : Type} (ops : BagOps α) (b : BagState α) (oldItem : α) : BagState α :=
  let level := getLevel ops oldItem
  let lst := b.item_table.getD level []
  if lst.any (fun x => ops.refOf x == ops.refOf oldItem) then
    let lst2 := removeFirstBy (fun x => ops.refOf x == ops.refOf oldItem) lst
    { b with item_table := b.item_table.set level lst2,
             mass := b.mass - ((level : ℤ) + 1) }
  else b

/-- The lowest non-empty level scan of intoBase; TOTAL_LEVEL when every level
is empty, exactly as the source loop leaves outLevel. -/
def findLowestNonEmpty {α : Type} (b : BagState α) : ℕ :=
  ((List.range TOTAL_LEVEL).find? (fun n => !emptyLevel b n)).getD TOTAL_LEVEL

/-- Push at a level with the mass update (the unconditional tail of
intoBase). -/
def pushAtLevel {α : Type} (b : BagState α) (inLevel : ℕ) (newItem : α) : BagState α :=
  { b with item_table := b.item_table.set inLevel (b.item_table.getD inLevel [] ++ [newItem]),
           mass := b.mass + ((inLevel : ℤ) + 1) }

/-- Bag.intoBase: over capacity, either reject the incoming item (when the
lowest occupied level is above its insertion level, returning it without
inserting) or evict the head of the lowest occupied level; then insert. -/
def intoBase {α : Type} (ops : BagOps α) (b : BagState α) (newItem : α) :
    BagState α × Option α :=
  let inLevel := getLevel ops newItem
  if b.capacity < size b then
    let outLevel := findLowestNonEmpty b
    if inLevel < outLevel then (b, some newItem)
    else
      let pr := takeOutFirst b outLevel
      (pushAtLevel pr.1 inLevel newItem, pr.2)
  else (pushAtLevel b inLevel newItem, none)

/-- Bag.putIn.  The boolean result is the return value of the source: false
exactly when the overflow item is the incoming item itself (rejection). -/
def putIn {α : Type} (ops : BagOps α) (b : BagState α) (newItem : α) :
    BagState α × Bool :=
  let newKey := ops.keyOf newItem
  let acc :=
    match mapGet b.name_table newKey with
    | some oldItem =>
      (outOfBase ops b oldItem,
        ops.setBudget newItem
          (BudgetFunctions.merge (ops.budgetOf newItem) (ops.budgetOf oldItem)))
    | none => (b, newItem)
  let b := acc.1
  let newItem := acc.2
  let pair := intoBase ops b newItem
  let b := { pair.1 with name_table := mapSet pair.1.name_table newKey newItem }
  match pair.2 with
  | some overflowItem =>
    ({ b with name_table := mapDelete b.name_table (ops.keyOf overflowItem) },
      !(ops.refOf overflowItem == ops.refOf newItem))
  | none => (b, true)

/-- Bag.putBack: apply forgetting to the budget, then put in. -/
def putBack {α : Type} (ops : BagOps α) (jsPow : ℚ → ℚ → ℚ) (b : BagState α)
    (oldItem : α) : BagState α × Bool :=
  let oldItem := ops.setBudget oldItem
    (BudgetFunctions.forget jsPow (ops.budgetOf oldItem) b.forget_rate RELATIVE_THRESHOLD)
  putIn ops b oldItem

/-- The distributor walk of takeOut (the while loop over empty levels), with
fuel; a non-empty bag always stops it within the distributor period. -/
def levelSearch {α : Type} (b : BagState α) (order : Array ℤ) :
    ℕ → ℕ → ℕ → ℕ × ℕ
  | 0, cl, li => (cl, li)
  | fuel + 1, cl, li =>
    if emptyLevel b cl then
      levelSearch b order fuel (Distributor.pick order li).toNat (Distributor.next order li)
    else (cl, li)

/-- Bag.takeOut: none on an empty bag; otherwise move to the next distributor
level when the current one is exhausted, set the counter (1 below THRESHOLD,
the level population otherwise), then pop the first item of the level. -/
def takeOut {α : Type} (ops : BagOps α) (order : Array ℤ) (b : BagState α) :
    BagState α × Option α :=
  if b.name_table.length = 0 then (b, none)
  else
    let b :=
      if emptyLevel b b.current_level || b.current_counter = 0 then
        let cl := (Distributor.pick order b.level_index).toNat
        let li := Distributor.next order b.level_index
        let found := levelSearch b order (order.size + 1) cl li
        { b with current_level := found.1, level_index := found.2,
                 current_counter :=
                   if found.1 < THRESHOLD then 1
                   else (b.item_table.getD found.1 []).length }
      else b
    let pair := takeOutFirst b b.current_level
    match pair.2 with
    | some selected =>
      ({ pair.1 with name_table := mapDelete pair.1.name_table (ops.keyOf selected),
                     current_counter := pair.1.current_counter - 1 }, some selected)
    | none => (pair.1, none)

/-- Bag.peek. -/
def peek {α : Type} (b : BagState α) (key : Option String) : Option α :=
  mapGet b.name_table key

end Bag

-- ===================================================================
-- Links and keyed items as bag contents
-- ===================================================================

/-- Model of a TaskLink or TermLink as a bag item: the nanoid the Link
constructor hands to the Item constructor (stored in _key), the budget, and
an identity tag for JS object identity. -/
structure LinkModel where
  ref : ℕ
  itemKey : String
  budget : Budget
deriving DecidableEq, Repr

/-- The property the Link key getter reads: return this.id behind a ts-ignore.
Neither Item nor Link (nor TaskLink or TermLink) declares a member named id,
so the access yields undefined on every link object. -/
def LinkModel.id? (_l : LinkModel) : Option String := none

/-- Link.key, the getter used by Bag.putIn on link bags. -/
def LinkModel.key (l : LinkModel) : Option String := l.id?

def linkBagOps : BagOps LinkModel :=
  { keyOf := LinkModel.key, budgetOf := LinkModel.budget,
    setBudget := fun l b => { l with budget := b }, refOf := LinkModel.ref }

/-- TaskLinkBag and TermLinkBag construction: the default capacity 1000 and
forget rate 10 of the Bag constructor. -/
def emptyLinkBag : BagState LinkModel := Bag.create 1000 10

/-- A keyed bag item (Task or Concept like): the key getter is the inherited
Item.key and returns the stored string. -/
structure KeyedItem where
  ref : ℕ
  key : String
  budget : Budget
deriving DecidableEq, Repr

def keyedBagOps : BagOps KeyedItem :=
  { keyOf := fun i => some i.key, budgetOf := KeyedItem.budget,
    setBudget := fun i b => { i with budget := b }, refOf := KeyedItem.ref }


/-- Existing and incoming items of the bag-merge scenario: same key, the
incoming item has the higher priority 0.7 against the stored 0.3. -/
def c3OldItem : KeyedItem := ⟨0, "k", ⟨⟨3000⟩, ⟨2000⟩, ⟨1000⟩⟩⟩

def c3NewItem : KeyedItem := ⟨1, "k", ⟨⟨7000⟩, ⟨1000⟩, ⟨5000⟩⟩⟩

/-- The state after inserting the old item and then the new item with the
same key into a fresh default bag. -/
def c3After : BagState KeyedItem :=
  (Bag.putIn keyedBagOps (Bag.putIn keyedBagOps (Bag.create 1000 10) c3OldItem).1 c3NewItem).1

/-- A handcrafted bag holding the old item under its key, used to instantiate
the merge theorem. -/
def c3WitnessBag : BagState KeyedItem :=
  { name_table := [(some "k", c3OldItem)], item_table := List.replicate 100 [],
    capacity := 1000, forget_rate := 10, mass := 0, level_index := 0,
    current_level := 99, current_counter := 0 }

/-- The three distinct-key items of the capacity-1 boundary scenario. -/
def c8ItemA : KeyedItem := ⟨0, "a", ⟨⟨5000⟩, ⟨5000⟩, ⟨5000⟩⟩⟩

def c8ItemB : KeyedItem := ⟨1, "b", ⟨⟨9000⟩, ⟨5000⟩, ⟨5000⟩⟩⟩

def c8ItemC : KeyedItem := ⟨2, "c", ⟨⟨9000⟩, ⟨5000⟩, ⟨5000⟩⟩⟩

def c8PutOne : BagState KeyedItem × Bool := Bag.putIn keyedBagOps (Bag.create 1 10) c8ItemA

def c8PutTwo : BagState KeyedItem × Bool := Bag.putIn keyedBagOps c8PutOne.1 c8ItemB

def c8PutThree : BagState KeyedItem × Bool := Bag.putIn keyedBagOps c8PutTwo.1 c8ItemC

/-- The capacity-1 bag after the first insertion, written out. -/
def c8StateOne : BagState KeyedItem :=
  { name_table := [(some "a", c8ItemA)],
    item_table := (List.replicate 100 ([] : List KeyedItem)).set 49 [c8ItemA],
    capacity := 1, forget_rate := 10, mass := 50, level_index := 1,
    current_level := 99, current_counter := 0 }

/-- The capacity-1 bag after the second insertion: both items present. -/
def c8StateTwo : BagState KeyedItem :=
  { name_table := [(some "a", c8ItemA), (some "b", c8ItemB)],
    item_table := ((List.replicate 100 ([] : List KeyedItem)).set 49 [c8ItemA]).set 89 [c8ItemB],
    capacity := 1, forget_rate := 10, mass := 140, level_index := 1,
    current_level := 99, current_counter := 0 }


-- ===================================================================
-- Rule engine (NALInferenceEngine): term model and Narsese mini-parser
-- ===================================================================

/-- The engine's own term model (the engine does not share the concept-side
Term class): atoms, rule variables, binary statements over the three copulas,
and negation compounds. -/
inductive ETerm where
  | atomT (nm : String)
  | varT (nm : String)
  | stmtT (copula : String) (subject : ETerm) (predicate : ETerm)
  | negT (inner : ETerm)
deriving DecidableEq, Repr

/-- formatTerm. -/
def formatTerm : ETerm → String
  | .atomT nm => nm
  | .varT nm => nm
  | .negT inner => "(--, " ++ formatTerm inner ++ ")"
  | .stmtT c s p => "<" ++ formatTerm s ++ " " ++ c ++ " " ++ formatTerm p ++ ">"

/-- String.prototype.trim on a character list (ASCII whitespace). -/
def trimChars (l : List Char) : List Char :=
  (((l.dropWhile Char.isWhitespace).reverse.dropWhile Char.isWhitespace)).reverse

/-- The first alternative of the copula regex matching at the head of the
list; the three alternatives start with distinct characters, so at most one
can match at a position. -/
def copulaAt : List Char → Option (List Char)
  | '-' :: '-' :: '>' :: _ => some ['-', '-', '>']
  | '<' :: '-' :: '>' :: _ => some ['<', '-', '>']
  | '=' :: '=' :: '>' :: _ => some ['=', '=', '>']
  | _ => none

/-- Leftmost match of the copula regex over the whole list. -/
def findFirstCopula : List Char → Option (List Char)
  | [] => none
  | l@(_ :: rest) =>
    match copulaAt l with
    | some c => some c
    | none => findFirstCopula rest

/-- String.prototype.split on a separator: leftmost, non-overlapping. -/
def splitOnAux (sep : List Char) : ℕ → List Char → List Char → List (List Char)
  | _, [], acc => [acc.reverse]
  | 0, s, acc => [(acc.reverse ++ s)]
  | fuel + 1, s@(c :: rest), acc =>
    if sep.isPrefixOf s then acc.reverse :: splitOnAux sep fuel (s.drop sep.length) []
    else splitOnAux sep fuel rest (c :: acc)

def splitOn (sep : List Char) (s : List Char) : List (List Char) :=
  splitOnAux sep (s.length + 1) s []

/-- The negation-compound regex match on the inside of a parenthesised
compound: two dashes, optional whitespace, a comma, optional whitespace, then
a non-empty group of dot-matchable characters (the dot excludes line
terminators) running to the end. -/
def matchNegation (l : List Char) : Option (List Char) :=
  match l with
  | '-' :: '-' :: rest =>
    let rest := rest.dropWhile Char.isWhitespace
    (match rest with
     | ',' :: rest2 =>
       let rest2 := rest2.dropWhile Char.isWhitespace
       if rest2.isEmpty then none
       else if rest2.any (fun c => c = (Char.ofNat 10) || c = (Char.ofNat 13)) then none
       else some rest2
     | _ => none)
  | _ => none

/-- The rule-variable token test, the regex with an optional question or
dollar prefix, an upper-case letter, then word characters. -/
def isVariableToken (l : List Char) : Bool :=
  match l with
  | [] => false
  | c :: rest =>
    let l2 := if c = '?' || c = '$' then rest else l
    (match l2 with
     | [] => false
     | d :: rest2 => d.isUpper && rest2.all (fun e => e.isAlphanum || e = '_'))

/-- parseTerm over a character list, with fuel (the recursive calls always
receive strictly shorter lists, so length + 1 fuel suffices). -/
def parseTermAux : ℕ → List Char → Except String ETerm
  | 0, _ => .error "out of fuel"
  | fuel + 1, source =>
    let trimmed := trimChars source
    if trimmed.head? = some '<' && trimmed.getLast? = some '>' then
      let inner := trimChars ((trimmed.drop 1).dropLast)
      match findFirstCopula inner with
      | none => .error "Unsupported statement"
      | some cop =>
        let pieces := (splitOn cop inner).map trimChars
        do
          let left ← parseTermAux fuel (pieces.getD 0 [])
          let right ← parseTermAux fuel (pieces.getD 1 [])
          return .stmtT (String.mk cop) left right
    else if trimmed.head? = some '(' && trimmed.getLast? = some ')' then
      let inside := trimChars ((trimmed.drop 1).dropLast)
      match matchNegation inside with
      | some grp => do
          let inner ← parseTermAux fuel (trimChars grp)
          return .negT inner
      | none => .error "Unsupported compound term"
    else
      pure (if isVariableToken trimmed then .varT (String.mk trimmed)
            else .atomT (String.mk trimmed))

/-- parseTerm. -/
def parseTerm (source : String) : Except String ETerm :=
  parseTermAux (source.data.length + 1) source.data

-- ===================================================================
-- Rule engine: unifier
-- ===================================================================

/-- The substitution map (JS Map in insertion order). -/
def Subst : Type := List (String × ETerm)

def substGet : Subst → String → Option ETerm
  | [], _ => none
  | (k, v) :: rest, nm => if k = nm then some v else substGet rest nm

def substSet : Subst → String → ETerm → Subst
  | [], nm, t => [(nm, t)]
  | (k, v) :: rest, nm, t =>
    if k = nm then (k, t) :: rest else (k, v) :: substSet rest nm t

/-- dereference: chase variable bindings; the map built by the unifier is
acyclic, so map-length fuel bounds every chase. -/
def dereference : ℕ → ETerm → Subst → ETerm
  | 0, t, _ => t
  | fuel + 1, t, m =>
    match t with
    | .varT nm =>
      (match substGet m nm with
       | some v => dereference fuel v m
       | none => t)
    | _ => t

/-- The occurs check, with fuel (the substitution is acyclic on every path
the engine builds; on fuel exhaustion the check reports an occurrence, which
blocks the binding just as a detected cycle would). -/
def occurs : ℕ → String → ETerm → Subst → Bool
  | 0, _, _, _ => true
  | fuel + 1, nm, t, m =>
    match dereference (m.length + 1) t m with
    | .varT nm2 => nm2 = nm
    | .stmtT _ s p => occurs fuel nm s m || occurs fuel nm p m
    | .negT i => occurs fuel nm i m
    | _ => false

/-- bind: the occurs check, then a copy of the map extended at the
variable. -/
def bindVar (fuel : ℕ) (nm : String) (t : ETerm) (m : Subst) : Option Subst :=
  if occurs fuel nm t m then none else some (substSet m nm t)

/-- unifyTerms, with fuel (patterns and facts are finite and the source
recursion terminates on them; the fuel is ample for every embedded call). -/
def unifyTerms : ℕ → ETerm → ETerm → Subst → Option Subst
  | 0, _, _, _ => none
  | fuel + 1, a, b, m =>
    let a := dereference (m.length + 1) a m
    let b := dereference (m.length + 1) b m
    match a, b with
    | .varT nm, _ => bindVar fuel nm b m
    | _, .varT nm => bindVar fuel nm a m
    | .atomT n1, .atomT n2 => if n1 = n2 then some m else none
    | .negT i1, .negT i2 => unifyTerms fuel i1 i2 m
    | .stmtT c1 s1 p1, .stmtT c2 s2 p2 =>
      if c1 ≠ c2 then none
      else
        (match unifyTerms fuel s1 s2 m with
         | none => none
         | some m1 => unifyTerms fuel p1 p2 m1)
    | _, _ => none

/-- substitute. -/
def substituteTerm : ℕ → ETerm → Subst → ETerm
  | 0, t, _ => t
  | fuel + 1, t, m =>
    match dereference (m.length + 1) t m with
    | .stmtT c s p => .stmtT c (substituteTerm fuel s m) (substituteTerm fuel p m)
    | .negT i => .negT (substituteTerm fuel i m)
    | t2 => t2

/-- The fuel used by the engine calls; ample for every term the embedded
scenarios and the guard proofs touch (the guards hold for every fuel). -/
def unifyFuel : ℕ := 1000

-- ===================================================================
-- Rule engine: guards, rules, state
-- ===================================================================

def isNegation : ETerm → Bool
  | .negT _ => true
  | _ => false

def isStatementE : ETerm → Bool
  | .stmtT _ _ _ => true
  | _ => false

def negationDepth : ETerm → ℕ
  | .negT i => 1 + negationDepth i
  | _ => 0

/-- isReflexiveInheritance: an inheritance statement whose subject and
predicate print identically. -/
def isReflexiveInheritance : ETerm → Bool
  | .stmtT c s p => c = "-->" && formatTerm s = formatTerm p
  | _ => false

/-- An inference rule (the parsed form of a rule-table line). -/
inductive InferenceRule where
  | onePremise (ruleName : String) (isInverseVariant : Bool)
      (premisePattern : ETerm) (conclusionTemplate : ETerm)
  | twoPremise (ruleName : String) (isInverseVariant : Bool)
      (premisePatternOne premisePatternTwo : ETerm) (conclusionTemplate : ETerm)
deriving DecidableEq, Repr

/-- EngineState: the rule list and the string-keyed fact store (a JS Set in
insertion order). -/
structure EngineState where
  rules : List InferenceRule
  knowledgeBaseStore : List String
deriving DecidableEq, Repr

def createEngineState : EngineState := { rules := [], knowledgeBaseStore := [] }

/-- Set.add$: append when absent. -/
def setAdd (store : List String) (k : String) : List String :=
  if store.contains k then store else store ++ [k]

def stripTrailingDot (l : List Char) : List Char :=
  if l.getLast? = some '.' then l.dropLast else l

/-- assertFact: trim, strip one trailing dot, parse (exceptions propagate),
skip reflexive inheritance, add the canonical key. -/
def assertFact (state : EngineState) (narsese : String) : Except String EngineState := do
  let cleaned := String.mk (stripTrailingDot (trimChars narsese.data))
  let term ← parseTerm cleaned
  if isReflexiveInheritance term then return state
  else
    return { state with
      knowledgeBaseStore := setAdd state.knowledgeBaseStore (formatTerm term) }

def knowledgeBaseHas (store : List String) (term : ETerm) : Bool :=
  store.contains (formatTerm term)

structure InferenceExplanation where
  conclusion : ETerm
  ruleApplied : String
  premisesMatched : List ETerm
  substitutionUsed : List (String × String)
deriving DecidableEq, Repr

/-- The mutable loop state of inferSingleShotOnCurrentFacts: the live
knowledge base, the fired-signature set and the explanation list. -/
structure InferAcc where
  kb : List String
  sigs : List String
  expls : List InferenceExplanation
deriving DecidableEq, Repr

/-- The prime suffix of inverse-variant signatures (character 39). -/
def primeStr : String := String.mk [Char.ofNat 39]

def mkSignature1 (name : String) (inv : Bool) (fact : ETerm) : String :=
  "1|" ++ name ++ (if inv then primeStr else "") ++ "|" ++ formatTerm fact

def mkSignature2 (name : String) (inv : Bool) (factOne factTwo : ETerm) : String :=
  "2|" ++ name ++ (if inv then primeStr else "") ++ "|" ++ formatTerm factOne ++ "|" ++
    formatTerm factTwo

def substToStrings (m : Subst) : List (String × String) :=
  m.map (fun e => (e.1, formatTerm e.2))

/-- The body of the one-premise loop: signature check, unification, the
no-double-negation input guard for the rule named negative, the negation
depth guard, the reflexive guard, then conditional add and explain. -/
def oneStep (name : String) (inv : Bool) (pat concl : ETerm) (fact : ETerm)
    (acc : InferAcc) : InferAcc :=
  let signature := mkSignature1 name inv fact
  if acc.sigs.contains signature then acc
  else
    match unifyTerms unifyFuel pat fact [] with
    | none => acc
    | some substitution =>
      if name = "negative" && isNegation fact then
        { acc with sigs := acc.sigs ++ [signature] }
      else
        let conclusion := substituteTerm unifyFuel concl substitution
        if isNegation conclusion && negationDepth conclusion > 1 then
          { acc with sigs := acc.sigs ++ [signature] }
        else if isReflexiveInheritance conclusion then
          { acc with sigs := acc.sigs ++ [signature] }
        else
          let e : InferenceExplanation :=
            { conclusion := conclusion,
              ruleApplied := name ++ (if inv then " (prime)" else ""),
              premisesMatched := [fact],
              substitutionUsed := substToStrings substitution }
          let acc :=
            if acc.kb.contains (formatTerm conclusion) then acc
            else { acc with kb := acc.kb ++ [formatTerm conclusion], expls := acc.expls ++ [e] }
          { acc with sigs := acc.sigs ++ [signature] }

/-- The body of the two-premise loop: signature check, sequential
unification, the reflexive guard (and no negation-depth guard), then
conditional add and explain. -/
def twoStep (name : String) (inv : Bool) (p1 p2 concl : ETerm)
    (factOne factTwo : ETerm) (acc : InferAcc) : InferAcc :=
  let signature := mkSignature2 name inv factOne factTwo
  if acc.sigs.contains signature then acc
  else
    match unifyTerms unifyFuel p1 factOne [] with
    | none => acc
    | some s1 =>
      match unifyTerms unifyFuel p2 factTwo s1 with
      | none => acc
      | some substitution =>
        let conclusion := substituteTerm unifyFuel concl substitution
        if isReflexiveInheritance conclusion then
          { acc with sigs := acc.sigs ++ [signature] }
        else
          let e : InferenceExplanation :=
            { conclusion := conclusion,
              ruleApplied := name ++ (if inv then " (prime)" else ""),
              premisesMatched := [factOne, factTwo],
              substitutionUsed := substToStrings substitution }
          let acc :=
            if acc.kb.contains (formatTerm conclusion) then acc
            else { acc with kb := acc.kb ++ [formatTerm conclusion], expls := acc.expls ++ [e] }
          { acc with sigs := acc.sigs ++ [signature] }

/-- One rule of the outer loop: the ordered-pair double loop for two-premise
rules, the single loop for one-premise rules, subject to the allow flags. -/
def ruleStep (allowOnePremise allowTwoPremise : Bool) (premiseSnapshot : List ETerm)
    (acc : InferAcc) (rule : InferenceRule) : InferAcc :=
  match rule with
  | .twoPremise name inv p1 p2 concl =>
    if !allowTwoPremise then acc
    else
      (List.range premiseSnapshot.length).foldl
        (fun acc i =>
          (List.range premiseSnapshot.length).foldl
            (fun acc j =>
              if i = j then acc
              else twoStep name inv p1 p2 concl (premiseSnapshot.getD i (.atomT ""))
                (premiseSnapshot.getD j (.atomT "")) acc)
            acc)
        acc
  | .onePremise name inv pat concl =>
    if !allowOnePremise then acc
    else premiseSnapshot.foldl (fun acc fact => oneStep name inv pat concl fact acc) acc

/-- inferSingleShotOnCurrentFacts: freeze and parse the premises (a parse
failure propagates before any mutation), run every rule over the snapshot,
and return the explanations with the updated store. -/
def inferSingleShotOnCurrentFacts (state : EngineState)
    (allowOnePremise allowTwoPremise : Bool) :
    Except String (List InferenceExplanation × EngineState) := do
  let premiseSnapshot ← state.knowledgeBaseStore.mapM parseTerm
  let acc := state.rules.foldl (ruleStep allowOnePremise allowTwoPremise premiseSnapshot)
    { kb := state.knowledgeBaseStore, sigs := [], expls := [] }
  return (acc.expls, { state with knowledgeBaseStore := acc.kb })

/-- A sequence of engine calls, for the insertion-path invariant: the two
operations throw only before their first mutation (both parse first), so a
raised call leaves the state unchanged. -/
inductive EngineEvent where
  | assert (s : String)
  | infer (allowOnePremise allowTwoPremise : Bool)

def applyEvent (st : EngineState) (e : EngineEvent) : EngineState :=
  match e with
  | .assert s =>
    (match assertFact st s with
     | .ok st2 => st2
     | .error _ => st)
  | .infer p1 p2 =>
    (match inferSingleShotOnCurrentFacts st p1 p2 with
     | .ok r => r.2
     | .error _ => st)

/-- A fact key is well-formed when it prints a non-reflexive term: the
property every insertion path establishes. -/
def FactOk (k : String) : Prop :=
  ∃ t, isReflexiveInheritance t = false ∧ k = formatTerm t

/-- The two-premise rule of the deep-negation scenario: conclusion with
negation depth 2. -/
def c5Rule : InferenceRule :=
  .twoPremise "weird" false (.varT "S") (.varT "P") (.negT (.negT (.atomT "a")))

/-- The one-premise negation-introduction rule used as a witness. -/
def c5NegRule : InferenceRule :=
  .onePremise "negative" false (.varT "S") (.negT (.varT "S"))

/-- The combining rule of the reflexive-key scenario. -/
def c10Rule : InferenceRule :=
  .twoPremise "comb" false (.varT "S") (.varT "P") (.stmtT "-->" (.varT "S") (.varT "P"))

-- ===================================================================
-- ===================================================================
-- Reasoner and channel (Reasoner.cycle / inputNarsese, NarseseChannel.put)
-- ===================================================================

/-- The shared distributor of the Bag class, new Distributor(TOTAL_LEVEL). -/
def bagOrder : Array ℤ := distributorBuild Bag.TOTAL_LEVEL

/-- A TaskLink as the concepts cycle sees it: object identity, the target
task, and the budget held by the Item base. -/
structure RTaskLink where
  ref : ℕ
  target : NTask
  budget : Budget

/-- Bag operations of a TaskLinkBag: the key getter of Link reads the
undefined property id, so every link answers the same undefined key. -/
def rtlOps : BagOps RTaskLink :=
  { keyOf := fun _ => none,
    budgetOf := fun l => l.budget,
    setBudget := fun l b => { l with budget := b },
    refOf := fun l => l.ref }

/-- A Concept as the cycle sees it: identity, canonical name (the Item key),
budget, and the task-link sub-bag (a TaskLinkBag, default capacity 1000 and
forget rate 10). -/
structure RConcept where
  ref : ℕ
  name : String
  budget : Budget
  taskLinks : BagState RTaskLink

/-- Bag operations of the ConceptBag: a Concept keys by its term name. -/
def conceptOps : BagOps RConcept :=
  { keyOf := fun c => some c.name,
    budgetOf := fun c => c.budget,
    setBudget := fun c b => { c with budget := b },
    refOf := fun c => c.ref }

/-- The mutable state the Reasoner methods touch: the logical clock of Time,
the concepts bag, the engine state _nalState, and the rest of the Memory
(task-link, term-link and task bags, concept bookkeeping), held abstractly as
mem since the embedded calls only thread it through Memory.input. -/
structure RState (mu : Type) where
  clock : ℤ
  concepts : BagState RConcept
  nal : EngineState
  mem : mu

/-- NarseseChannel.put: an empty trimmed text raises before the try block;
inside it, a parser failure is caught and returned as [false, null, null],
and on success the stamp times of the parsed task are set from the clock
(occurrence time only for a non-eternal sentence).  The generated parser is
not part of the sources, so parse is passed in. -/
def channelPut (parse : String → Except String (Option NTask)) (clock : ℤ)
    (text : String) : Except String (Bool × Option NTask × Option NTask) :=
  if trimChars text.data = [] then Except.error "Input text cannot be empty"
  else
    match parse text with
    | .error _ => Except.ok (false, none, none)
    | .ok none => Except.ok (true, none, none)
    | .ok (some task) =>
      let task1 :=
        if !task.sentence.stamp.isEternal then
          { task with sentence := { task.sentence with
              stamp := { task.sentence.stamp with occurrenceTime := clock } } }
        else task
      let task2 := { task1 with sentence := { task1.sentence with
          stamp := { task1.sentence.stamp with creationTime := clock } } }
      Except.ok (true, some task2, none)

/-- The body of the derivation loop of Reasoner.cycle: route the printed
conclusion (plus the punctuation of the processed task) through the channel,
feed the derived task to Memory.input with the non-null assertion of the
source (a null derived task faults), and tick the clock.  Memory.input is
passed in as memoryInput over the abstract memory and the concepts bag; it
never touches the clock. -/
def cycleDeriveStep {mu : Type} (parse : String → Except String (Option NTask))
    (memoryInput : mu → BagState RConcept → NTask → mu × BagState RConcept × List NSentence)
    (punct : String) (s : RState mu) (r : InferenceExplanation) :
    Except String (RState mu) := do
  let trip ← channelPut parse s.clock (formatTerm r.conclusion ++ punct)
  match trip.2.1 with
  | none => Except.error "TypeError: derived task is null"
  | some derived =>
    let mi := memoryInput s.mem s.concepts derived
    pure { s with mem := mi.1, concepts := mi.2.1, clock := s.clock + 1 }

/-- Reasoner.cycle: take a concept out of the concepts bag (return when the
bag yields none), take a task link out of its sub-bag (put the concept back
when none), put the link back with decay, assert the task term into the
engine state, run the single-shot inference, run the derivation loop, and
put the concept back.  Exceptions of assertFact, of the inference call and
of the loop propagate; the partial mutations a raised call leaves behind in
the source are not tracked, and only completed calls are compared. -/
def cycle {mu : Type} (parse : String → Except String (Option NTask))
    (memoryInput : mu → BagState RConcept → NTask → mu × BagState RConcept × List NSentence)
    (jsPow : ℚ → ℚ → ℚ) (st : RState mu) : Except String (RState mu) :=
  match (Bag.takeOut conceptOps bagOrder st.concepts).2 with
  | none => Except.ok { st with concepts := (Bag.takeOut conceptOps bagOrder st.concepts).1 }
  | some concept =>
    match (Bag.takeOut rtlOps bagOrder concept.taskLinks).2 with
    | none =>
      Except.ok { st with concepts :=
        (Bag.putBack conceptOps jsPow (Bag.takeOut conceptOps bagOrder st.concepts).1
          { concept with taskLinks := (Bag.takeOut rtlOps bagOrder concept.taskLinks).1 }).1 }
    | some taskLink => do
      let concept2 := { concept with taskLinks :=
        (Bag.putBack rtlOps jsPow (Bag.takeOut rtlOps bagOrder concept.taskLinks).1 taskLink).1 }
      let task := taskLink.target
      let nal2 ← assertFact st.nal task.sentence.term.name
      let pr ← inferSingleShotOnCurrentFacts nal2 true true
      let st2 ← pr.1.foldlM (cycleDeriveStep parse memoryInput task.sentence.punctuation)
        { st with nal := pr.2, concepts := (Bag.takeOut conceptOps bagOrder st.concepts).1 }
      Except.ok { st2 with concepts := (Bag.putBack conceptOps jsPow st2.concepts concept2).1 }

/-- Reasoner.inputNarsese: a non-empty numeric text runs that many cycles,
ticking once more after each; otherwise the trimmed text goes through
channel.put (whose empty-input error nothing catches here), and a parsed
task is fed to Memory.input followed by one tick.  The JS numeric test and
parseInt are passed in. -/
def inputNarsese {mu : Type} (parse : String → Except String (Option NTask))
    (isNumeric : String → Bool) (parseIntNat : String → ℕ)
    (memoryInput : mu → BagState RConcept → NTask → mu × BagState RConcept × List NSentence)
    (jsPow : ℚ → ℚ → ℚ) (st : RState mu) (text : String) :
    Except String ((Bool × Option NTask × Option NTask × Option (List NSentence)) × RState mu) :=
  let trimmed := String.mk (trimChars text.data)
  if (trimmed != "") && isNumeric trimmed then do
    let st2 ← (List.range (parseIntNat trimmed)).foldlM
      (fun s _ => do
        let s2 ← cycle parse memoryInput jsPow s
        Except.ok { s2 with clock := s2.clock + 1 }) st
    Except.ok ((true, none, none, none), st2)
  else do
    let trip ← channelPut parse st.clock trimmed
    match trip.2.1 with
    | some task =>
      let mi := memoryInput st.mem st.concepts task
      Except.ok ((trip.1, some task, trip.2.2, some mi.2.2),
        { st with mem := mi.1, concepts := mi.2.1, clock := st.clock + 1 })
    | none => Except.ok ((trip.1, none, trip.2.2, some []), st)

/-- The malformed-input scenario: a parser that always fails. -/
def c6Parse : String → Except String (Option NTask) := fun _ => Except.error "Unexpected token"

def c6NoNum : String → Bool := fun _ => false

def c6ParseInt : String → ℕ := fun _ => 0

def c6MemInput : Unit → BagState RConcept → NTask → Unit × BagState RConcept × List NSentence :=
  fun u b _ => (u, b, [])

def c6Pow : ℚ → ℚ → ℚ := fun _ _ => 0

/-- A fresh reasoner state: clock 0, empty concepts bag of CONCEPT_BAG_SIZE,
empty engine state. -/
def c6State : RState Unit :=
  { clock := 0, concepts := Bag.create 10000 10, nal := createEngineState, mem := () }

/-- An eternal judgment task, as a parse result of the tick-count scenario. -/
def w7Task : NTask :=
  { sentence :=
      { term := .atom "fly" "", punctuation := ".",
        truth := some { frequency := ⟨9000⟩, confidence := ⟨9000⟩ },
        stamp := { evidentialBase := [⟨1, 0⟩], creationTime := 0,
                   occurrenceTime := stampETERNAL, tense := none } },
    budget := { priority := ⟨8000⟩, durability := ⟨5000⟩, quality := ⟨8600⟩ },
    achievement := none }

def w7Parse : String → Except String (Option NTask) := fun _ => Except.ok (some w7Task)

def w7NoNum : String → Bool := fun _ => false

def w7ParseInt : String → ℕ := fun _ => 0

def w7MemInput : Unit → BagState RConcept → NTask → Unit × BagState RConcept × List NSentence :=
  fun u b _ => (u, b, [])

def w7Pow : ℚ → ℚ → ℚ := fun _ _ => 0

def w7State : RState Unit :=
  { clock := 5, concepts := Bag.create 10000 10, nal := createEngineState, mem := () }

/-- The task the channel hands on: creation time stamped with the clock. -/
def w7Derived : NTask :=
  { w7Task with sentence := { w7Task.sentence with
      stamp := { w7Task.sentence.stamp with creationTime := 5 } } }

def c7Parse : String → Except String (Option NTask) := fun _ => Except.ok none

def c7MemInput : Unit → BagState RConcept → NTask → Unit × BagState RConcept × List NSentence :=
  fun u b _ => (u, b, [])

def c7Pow : ℚ → ℚ → ℚ := fun _ _ => 0

/-- A reasoner state with an empty concepts bag and a nonzero clock. -/
def c7State : RState Unit :=
  { clock := 5, concepts := Bag.create 10000 10, nal := createEngineState, mem := () }

deriving instance DecidableEq for Except

-- ===================================================================
-- THEOREM ZONE.  New definitions are inserted above this marker.
-- ===================================================================

/-- Helper for claim C9: closed form of TruthFunctions.revision applied to two
copies of the same truth value with 0 < c < 1: the frequency is returned
unchanged and the confidence becomes 2c / (1 + c), both then rounded to the
four-digit ShortFloat grid. -/
lemma revision_self_closed_form (f n : ℕ) (h1 : 1 ≤ n) (h2 : n ≤ 9999) :
    TruthFunctions.revision ⟨⟨f⟩, ⟨n⟩⟩ ⟨⟨f⟩, ⟨n⟩⟩ =
      ⟨ShortFloat.ofQ ((f : ℚ) / 10000),
       ShortFloat.ofQ (2 * (n : ℚ) / (10000 + (n : ℚ)))⟩ := by
  have hn0 : (0 : ℚ) < (n : ℚ) := by exact_mod_cast h1
  have hn1 : (n : ℚ) < 10000 := by
    have h3 : n < 10000 := lt_of_le_of_lt h2 (by norm_num)
    exact_mod_cast h3
  have hcpos : (0 : ℚ) < 1 - (n : ℚ) / 10000 := by nlinarith
  have hc1 : 1 - (n : ℚ) / 10000 ≠ 0 := ne_of_gt hcpos
  simp only [TruthFunctions.revision, TruthFunctions.truth_from_w,
    TruthFunctions.w_to_f, TruthFunctions.w_to_c,
    TruthFunctions.fc_to_w_plus, TruthFunctions.fc_to_w_minus,
    Truth.getFrequency, Truth.getConfidence, ShortFloat.getValue, Truth.k]
  push_cast
  have hWeq : (1 * ((f : ℚ) / 10000) * ((n : ℚ) / 10000) / (1 - (n : ℚ) / 10000)
        + 1 * ((f : ℚ) / 10000) * ((n : ℚ) / 10000) / (1 - (n : ℚ) / 10000))
        + (1 * (1 - (f : ℚ) / 10000) * ((n : ℚ) / 10000) / (1 - (n : ℚ) / 10000)
        + 1 * (1 - (f : ℚ) / 10000) * ((n : ℚ) / 10000) / (1 - (n : ℚ) / 10000))
      = 2 * ((n : ℚ) / 10000) / (1 - (n : ℚ) / 10000) := by ring
  rw [hWeq]
  have hW : 2 * ((n : ℚ) / 10000) / (1 - (n : ℚ) / 10000) ≠ 0 := by positivity
  rw [if_pos hW, if_pos hW, Truth.mk.injEq]
  have hn10000 : (10000 : ℚ) + (n : ℚ) ≠ 0 := by positivity
  have h10000n : (10000 : ℚ) - (n : ℚ) ≠ 0 := by nlinarith
  refine ⟨?_, ?_⟩
  case _ =>
    congr 1
    rw [div_eq_div_iff hW (by norm_num : (10000:ℚ) ≠ 0)]
    field_simp [h10000n]
    ring
  case _ =>
    congr 1
    rw [div_eq_div_iff (by positivity) hn10000]
    field_simp [h10000n]
    ring

/-- Claim C9 (counterexample): the claim quantifies over every truth (f, c)
with c < 1.  At c = 0 the weight sum is zero, so TruthFunctions.revision
returns frequency 0.5 instead of f = 0.9; and at c = 0.9999 the revised
confidence 2c/(1+c) rounds back to 0.9999 on the four-digit grid, so it is not
strictly greater than c. -/
theorem claim_C9_counterexample :
    (TruthFunctions.revision ⟨⟨9000⟩, ⟨0⟩⟩ ⟨⟨9000⟩, ⟨0⟩⟩).frequency ≠ ⟨9000⟩ ∧
    ¬ ((9999 : ℤ) < (TruthFunctions.revision ⟨⟨9000⟩, ⟨9999⟩⟩ ⟨⟨9000⟩, ⟨9999⟩⟩).confidence.val) := by
  norm_num [TruthFunctions.revision, TruthFunctions.truth_from_w, TruthFunctions.w_to_f,
    TruthFunctions.w_to_c, TruthFunctions.fc_to_w_plus, TruthFunctions.fc_to_w_minus,
    Truth.getFrequency, Truth.getConfidence, ShortFloat.getValue, ShortFloat.ofQ,
    jsRound, Truth.k, ShortFloat.mk.injEq]

/-- Claim C9 (amended): for every ShortFloat-representable truth value (f, c)
with 0.0001 <= c <= 0.9998, revising it with an identical copy of itself via
TruthFunctions.revision yields a truth whose frequency equals f and whose
confidence is strictly greater than c. -/
theorem claim_C9 (f n : ℕ) (_hf : f ≤ 10000) (h1 : 1 ≤ n) (h2 : n ≤ 9998) :
    (TruthFunctions.revision ⟨⟨f⟩, ⟨n⟩⟩ ⟨⟨f⟩, ⟨n⟩⟩).frequency = ⟨f⟩ ∧
    (n : ℤ) < (TruthFunctions.revision ⟨⟨f⟩, ⟨n⟩⟩ ⟨⟨f⟩, ⟨n⟩⟩).confidence.val := by
  rw [revision_self_closed_form f n h1 (le_trans h2 (by norm_num))]
  have hN0 : (0 : ℚ) ≤ (n : ℚ) := Nat.cast_nonneg n
  have hN1 : (1 : ℚ) ≤ (n : ℚ) := by exact_mod_cast h1
  have hN2 : (n : ℚ) ≤ 9998 := by exact_mod_cast h2
  constructor
  case _ =>
    show ShortFloat.ofQ ((f : ℚ) / 10000) = ⟨f⟩
    unfold ShortFloat.ofQ jsRound
    congr 1
    have hmul : (f : ℚ) / 10000 * 10000 = (f : ℚ) := by field_simp
    rw [hmul]
    rw [add_comm, Int.floor_add_nat]
    norm_num
  case _ =>
    show (n : ℤ) < (ShortFloat.ofQ (2 * (n : ℚ) / (10000 + (n : ℚ)))).val
    unfold ShortFloat.ofQ jsRound
    rw [Int.lt_iff_add_one_le, Int.le_floor]
    have hden : (0 : ℚ) < 10000 + (n : ℚ) := by positivity
    push_cast
    rw [div_mul_eq_mul_div, ← sub_nonneg]
    have key : (2 * (n : ℚ) * 10000) / (10000 + (n : ℚ)) + 1/2 - ((n : ℚ) + 1) =
        ((2 * (n : ℚ) * 10000) - ((n : ℚ) + 1/2) * (10000 + (n : ℚ)))
          / (10000 + (n : ℚ)) := by
      field_simp
      ring
    rw [key]
    apply div_nonneg _ (le_of_lt hden)
    nlinarith [mul_nonneg (sub_nonneg.mpr hN1) (sub_nonneg.mpr hN2)]

/-- Claim C9 (witness): instantiates claim_C9 at the truth (0.9, 0.9). -/
theorem claim_C9_witness :
    (TruthFunctions.revision ⟨⟨9000⟩, ⟨9000⟩⟩ ⟨⟨9000⟩, ⟨9000⟩⟩).frequency = ⟨9000⟩ ∧
    (9000 : ℤ) < (TruthFunctions.revision ⟨⟨9000⟩, ⟨9000⟩⟩ ⟨⟨9000⟩, ⟨9000⟩⟩).confidence.val :=
  claim_C9 9000 9000 (by decide) (by decide) (by decide)

/-- Claim C1 (code evaluated at the failing input): processing the judgment
with truth (0.9, 0.9) and then the judgment with truth (0.8, 0.8), carrying
disjoint evidence bases, leaves the concept with exactly the two unrevised
beliefs; the section 4.5 revision of the two truths is (0.8692, 0.9286), and
no stored belief carries it, because Concept.processJudgment discards the
Task that Concept.localRevision builds. -/
theorem claim_C1 :
    birdFlyConceptAfter.beliefs.map (fun t => t.sentence.truth) =
      [some ⟨⟨9000⟩, ⟨9000⟩⟩, some ⟨⟨8000⟩, ⟨8000⟩⟩] ∧
    TruthFunctions.revision ⟨⟨8000⟩, ⟨8000⟩⟩ ⟨⟨9000⟩, ⟨9000⟩⟩ = ⟨⟨8692⟩, ⟨9286⟩⟩ ∧
    ∀ t ∈ birdFlyConceptAfter.beliefs, t.sentence.truth ≠ some ⟨⟨8692⟩, ⟨9286⟩⟩ := by
  norm_num +decide [birdFlyConceptAfter, birdFlyTaskOne, birdFlyTaskTwo,
    birdFlyStampOne, birdFlyStampTwo, birdFly,
    Concept.create, Concept.processJudgment, Concept.selectCandidate,
    Concept.localRevision, Concept.calcTaskAchievement,
    RuleFunctions.solutionQualityConf, RuleFunctions.revisable,
    NSentence.isJudgement, NSentence.isRevisable, NStamp.equals,
    NStamp.isEternal, NStamp.evidentialHash, NStamp.baseOverlap,
    BaseEntry.str, intDecimal, natDecimal, natDecimalAux, int32,
    sortStrings, insertSorted, stampETERNAL, StampFunctions.revision,
    zipInterleave, mkJudgement, Parameters.BUDGET_THRESHOLD,
    Parameters.REVISION_MAX_OCCURRENCE_DISTANCE, Parameters.DURATION,
    Parameters.MAXIMUM_EVIDENTIAL_BASE_LENGTH,
    NTerm.hasQueryVariable, NTerm.hasDependantVariable, NTerm.temporalOrder,
    NTerm.name, Budget.summary, Budget.priorityQ, Budget.durabilityQ,
    Budget.qualityQ, Budget.setPriority, Budget.setDurability, Budget.setQuality,
    Budget.ofQ, ShortFloat.ofQ, ShortFloat.getValue, ShortFloat.setValue,
    Truth.getFrequency, Truth.getConfidence, Truth.getExpectation, Truth.k,
    TruthFunctions.revision, TruthFunctions.truth_from_w, TruthFunctions.w_to_f,
    TruthFunctions.w_to_c, TruthFunctions.fc_to_w_plus, TruthFunctions.fc_to_w_minus,
    TruthFunctions.truthToQuality, BudgetFunctions.revision,
    MathFunctions.or2, MathFunctions.and2, MathFunctions.average2, jsRound,
    abs_of_nonneg]

/-- Helper for claim C4: one addQuestion call preserves the 7-entry bound. -/
lemma addQuestion_length_le (c : Concept) (t : NTask)
    (h : c.questions.length ≤ Parameters.CONCEPT_GOALS_MAX) :
    ((c.addQuestion t).questions.length ≤ Parameters.CONCEPT_GOALS_MAX) := by
  simp only [Concept.addQuestion, Parameters.CONCEPT_GOALS_MAX] at *
  split
  case _ hge => simp [List.length_append, List.length_drop]; omega
  case _ hlt => simp [List.length_append]; omega

/-- Claim C4 (counterexample): six addQuestion calls on a fresh concept leave
six stored questions, exceeding CONCEPT_QUESTIONS_MAX = 5; the source caps
the question list with CONCEPT_GOALS_MAX = 7 instead. -/
theorem claim_C4_counterexample :
    ((["a", "b", "c", "d", "e", "f"].map sampleQuestion).foldl Concept.addQuestion
        (Concept.create (.atom "bird" "") ⟨⟨8000⟩, ⟨5000⟩, ⟨100⟩⟩)).questions.length = 6 ∧
    ¬ ((["a", "b", "c", "d", "e", "f"].map sampleQuestion).foldl Concept.addQuestion
        (Concept.create (.atom "bird" "") ⟨⟨8000⟩, ⟨5000⟩, ⟨100⟩⟩)).questions.length ≤
      Parameters.CONCEPT_QUESTIONS_MAX := by
  decide

/-- Claim C4 (amended): over every sequence of addQuestion calls the question
list of a concept holds at most CONCEPT_GOALS_MAX = 7 entries (not 5), and
when the list is full the oldest question is shifted out, FIFO. -/
theorem claim_C4 :
    (∀ (ts : List NTask) (c : Concept),
        c.questions.length ≤ Parameters.CONCEPT_GOALS_MAX →
        (ts.foldl Concept.addQuestion c).questions.length ≤ Parameters.CONCEPT_GOALS_MAX) ∧
    (∀ (c : Concept) (t : NTask),
        Parameters.CONCEPT_GOALS_MAX ≤ c.questions.length →
        (c.addQuestion t).questions = c.questions.drop 1 ++ [t]) := by
  constructor
  case _ =>
    intro ts
    induction ts with
    | nil => intro c h; simpa using h
    | cons t ts ih =>
      intro c h
      exact ih _ (addQuestion_length_le c t h)
  case _ =>
    intro c t h
    simp only [Concept.addQuestion, if_pos h]

/-- Claim C4 (witness): instantiates claim_C4 on a concrete concept holding
seven questions. -/
theorem claim_C4_witness :
    ((([sampleQuestion "h"]).foldl Concept.addQuestion
        (Concept.create (.atom "b" "") ⟨⟨8000⟩, ⟨5000⟩, ⟨100⟩⟩)).questions.length ≤
      Parameters.CONCEPT_GOALS_MAX) ∧
    ((Concept.addQuestion
        { term := .atom "b" "", budget := ⟨⟨8000⟩, ⟨5000⟩, ⟨100⟩⟩,
          beliefs := [],
          questions := ["a", "b", "c", "d", "e", "f", "g"].map sampleQuestion }
        (sampleQuestion "h")).questions =
      (["a", "b", "c", "d", "e", "f", "g"].map sampleQuestion).drop 1 ++ [sampleQuestion "h"]) :=
  ⟨claim_C4.1 [sampleQuestion "h"] _ (by decide),
   claim_C4.2 _ (sampleQuestion "h") (by decide)⟩

lemma ShortFloat.ofQ_getValue (s : ShortFloat) : ShortFloat.ofQ s.getValue = s := by
  unfold ShortFloat.ofQ ShortFloat.getValue jsRound
  congr 1
  rw [div_mul_cancel₀ _ (by norm_num : (10000 : ℚ) ≠ 0)]
  rw [add_comm, Int.floor_add_int]
  norm_num

lemma merge_eval (b1 b2 : Budget) :
    BudgetFunctions.merge b1 b2 =
      ⟨b2.priority, ⟨max b1.durability.val b2.durability.val⟩,
        ⟨max b1.quality.val b2.quality.val⟩⟩ := by
  unfold BudgetFunctions.merge
  simp only [Budget.setPriority, Budget.setDurability, Budget.setQuality,
    Budget.priorityQ, Budget.durabilityQ, Budget.qualityQ, ShortFloat.setValue]
  rw [ShortFloat.ofQ_getValue]
  congr 1
  case _ =>
    show ShortFloat.ofQ (max b1.durability.getValue b2.durability.getValue) = _
    unfold ShortFloat.getValue
    rw [max_div_div_right (by norm_num : (0:ℚ) ≤ 10000)]
    rw [← Int.cast_max]
    exact ShortFloat.ofQ_getValue ⟨max b1.durability.val b2.durability.val⟩
  case _ =>
    show ShortFloat.ofQ (max b1.quality.getValue b2.quality.getValue) = _
    unfold ShortFloat.getValue
    rw [max_div_div_right (by norm_num : (0:ℚ) ≤ 10000)]
    rw [← Int.cast_max]
    exact ShortFloat.ofQ_getValue ⟨max b1.quality.val b2.quality.val⟩

lemma outOfBase_name_table {α : Type} (ops : BagOps α) (b : BagState α) (i : α) :
    (Bag.outOfBase ops b i).name_table = b.name_table := by
  unfold Bag.outOfBase
  dsimp only
  split <;> rfl

lemma outOfBase_capacity {α : Type} (ops : BagOps α) (b : BagState α) (i : α) :
    (Bag.outOfBase ops b i).capacity = b.capacity := by
  unfold Bag.outOfBase
  dsimp only
  split <;> rfl

lemma takeOutFirst_capacity {α : Type} (b : BagState α) (lvl : ℕ) :
    (Bag.takeOutFirst b lvl).1.capacity = b.capacity := by
  unfold Bag.takeOutFirst
  split <;> rfl

lemma takeOutFirst_name_table {α : Type} (b : BagState α) (lvl : ℕ) :
    (Bag.takeOutFirst b lvl).1.name_table = b.name_table := by
  unfold Bag.takeOutFirst
  split <;> rfl

lemma intoBase_capacity {α : Type} (ops : BagOps α) (b : BagState α) (i : α) :
    (Bag.intoBase ops b i).1.capacity = b.capacity := by
  unfold Bag.intoBase
  dsimp only
  split_ifs <;> simp [Bag.pushAtLevel, takeOutFirst_capacity]

lemma intoBase_name_table {α : Type} (ops : BagOps α) (b : BagState α) (i : α) :
    (Bag.intoBase ops b i).1.name_table = b.name_table := by
  unfold Bag.intoBase
  dsimp only
  split_ifs <;> simp [Bag.pushAtLevel, takeOutFirst_name_table]

lemma putIn_capacity {α : Type} (ops : BagOps α) (b : BagState α) (l : α) :
    ((Bag.putIn ops b l).1).capacity = b.capacity := by
  unfold Bag.putIn
  dsimp only
  cases hg : Bag.mapGet b.name_table (ops.keyOf l) <;> dsimp only <;>
    split <;> simp [intoBase_capacity, outOfBase_capacity]

lemma linkBag_putIn_shape (b : BagState LinkModel) (l : LinkModel)
    (hcap : b.capacity = 1000)
    (h : b.name_table = [] ∨ ∃ x, b.name_table = [(none, x)]) :
    ∃ bud, ((Bag.putIn linkBagOps b l).1).name_table = [(none, { l with budget := bud })] := by
  rcases h with h | ⟨x, h⟩
  case _ =>
    refine ⟨l.budget, ?_⟩
    unfold Bag.putIn
    simp [Bag.mapGet, Bag.intoBase, Bag.size, h, hcap, Bag.pushAtLevel, Bag.mapSet,
      linkBagOps, LinkModel.key, LinkModel.id?]
  case _ =>
    refine ⟨BudgetFunctions.merge l.budget x.budget, ?_⟩
    unfold Bag.putIn
    simp [Bag.mapGet, Bag.intoBase, Bag.size, h, hcap, Bag.pushAtLevel, Bag.mapSet,
      linkBagOps, LinkModel.key, LinkModel.id?, outOfBase_name_table, outOfBase_capacity,
      Bag.takeOutFirst]



lemma mapGet_mapSet_self {α : Type} (m : List (Option String × α)) (k : Option String) (v : α) :
    Bag.mapGet (Bag.mapSet m k v) k = some v := by
  induction m with
  | nil => simp [Bag.mapSet, Bag.mapGet]
  | cons e rest ih =>
    by_cases h : e.1 = k
    case _ => simp [Bag.mapSet, Bag.mapGet, h]
    case _ => simp [Bag.mapSet, Bag.mapGet, h, ih]

lemma intoBase_overflow_none {α : Type} (ops : BagOps α) (b : BagState α) (i : α)
    (h : ¬ b.capacity < Bag.size b) : (Bag.intoBase ops b i).2 = none := by
  unfold Bag.intoBase
  dsimp only
  rw [if_neg h]

lemma putIn_no_old {α : Type} (ops : BagOps α) (b : BagState α) (l : α)
    (hsize : ¬ b.capacity < Bag.size b)
    (hget : Bag.mapGet b.name_table (ops.keyOf l) = none) :
    ((Bag.putIn ops b l).1).name_table = Bag.mapSet b.name_table (ops.keyOf l) l ∧
    (Bag.putIn ops b l).2 = true := by
  unfold Bag.putIn
  dsimp only
  rw [hget]
  dsimp only
  rw [show (Bag.intoBase ops b l).2 = none from intoBase_overflow_none ops b l hsize]
  dsimp only
  constructor
  case _ => rw [intoBase_name_table]
  case _ => rfl

lemma putIn_with_old {α : Type} (ops : BagOps α) (b : BagState α) (l old : α)
    (hsize : ¬ b.capacity < Bag.size b)
    (hget : Bag.mapGet b.name_table (ops.keyOf l) = some old) :
    ((Bag.putIn ops b l).1).name_table =
      Bag.mapSet b.name_table (ops.keyOf l)
        (ops.setBudget l (BudgetFunctions.merge (ops.budgetOf l) (ops.budgetOf old))) ∧
    (Bag.putIn ops b l).2 = true := by
  unfold Bag.putIn
  dsimp only
  rw [hget]
  dsimp only
  have hsz2 : ¬ (Bag.outOfBase ops b old).capacity < Bag.size (Bag.outOfBase ops b old) := by
    unfold Bag.size
    rw [outOfBase_name_table, outOfBase_capacity]
    exact hsize
  rw [show (Bag.intoBase ops (Bag.outOfBase ops b old)
      (ops.setBudget l (BudgetFunctions.merge (ops.budgetOf l) (ops.budgetOf old)))).2 = none from
    intoBase_overflow_none _ _ _ hsz2]
  dsimp only
  constructor
  case _ => rw [intoBase_name_table, outOfBase_name_table]
  case _ => rfl



lemma linkBagFold_invariant (ls : List LinkModel) :
    ((ls.foldl (fun b l => (Bag.putIn linkBagOps b l).1) emptyLinkBag).capacity = 1000) ∧
    ((ls.foldl (fun b l => (Bag.putIn linkBagOps b l).1) emptyLinkBag).name_table = [] ∨
      ∃ x, (ls.foldl (fun b l => (Bag.putIn linkBagOps b l).1) emptyLinkBag).name_table = [(none, x)]) ∧
    ((ls.foldl (fun b l => (Bag.putIn linkBagOps b l).1) emptyLinkBag).name_table.map
        (fun e => (e.1, e.2.ref)) =
      (ls.getLast?.map (fun l => ((none : Option String), l.ref))).toList) := by
  induction ls using List.reverseRecOn with
  | nil => refine ⟨rfl, Or.inl rfl, rfl⟩
  | append_singleton ls l ih =>
    obtain ⟨hcap, hshape, _hmap⟩ := ih
    rw [List.foldl_append]
    obtain ⟨bud, hnt⟩ := linkBag_putIn_shape _ l hcap hshape
    rw [List.getLast?_concat]
    simp only [List.foldl_cons, List.foldl_nil]
    refine ⟨by rw [putIn_capacity]; exact hcap, Or.inr ⟨_, hnt⟩, ?_⟩
    rw [hnt]
    simp

/-- Claim C2: the Link key getter returns undefined (none) on every link
because it reads a property id that neither Item nor Link defines, and as a
result every sequence of putIn calls on a TaskLinkBag or TermLinkBag leaves a
name table with at most one entry: the most recent link, stored under the
collided undefined key after merging with the displaced one. -/
theorem claim_C2 :
    (∀ l : LinkModel, l.key = none) ∧
    (∀ ls : List LinkModel,
      ((ls.foldl (fun b l => (Bag.putIn linkBagOps b l).1) emptyLinkBag).name_table.map
          (fun e => (e.1, e.2.ref)) =
        (ls.getLast?.map (fun l => ((none : Option String), l.ref))).toList)) :=
  ⟨fun _ => rfl, fun ls => (linkBagFold_invariant ls).2.2⟩



/-- Claim C3 (amended): when the key of the incoming item already exists in a
bag that is within capacity, putIn removes the old copy and stores the new
item with merged budget, whose priority is the OLD priority (the merge copies
the adjuster priority over the base), and whose durability and quality are
the maxima. -/
theorem claim_C3 (b : BagState KeyedItem) (old new : KeyedItem) (k : String)
    (hget : Bag.mapGet b.name_table (some k) = some old)
    (hkey : new.key = k)
    (hsize : Bag.size b ≤ b.capacity) :
    Bag.peek ((Bag.putIn keyedBagOps b new).1) (some k) =
      some { new with budget :=
        ⟨old.budget.priority,
         ⟨max new.budget.durability.val old.budget.durability.val⟩,
         ⟨max new.budget.quality.val old.budget.quality.val⟩⟩ } ∧
    (Bag.putIn keyedBagOps b new).2 = true := by
  have hkey2 : keyedBagOps.keyOf new = some k := by simp [keyedBagOps, hkey]
  have h := putIn_with_old keyedBagOps b new old (Nat.not_lt.mpr hsize) (by rw [hkey2]; exact hget)
  refine ⟨?_, h.2⟩
  unfold Bag.peek
  rw [h.1, hkey2, mapGet_mapSet_self]
  congr 1
  show { new with budget := BudgetFunctions.merge new.budget old.budget } = _
  rw [merge_eval]

/-- Claim C3 (counterexample): inserting a same-key item with priority 0.7
over a stored copy with priority 0.3 leaves the stored priority at 0.3, not
at the new 0.7 the claim requires. -/
theorem claim_C3_counterexample :
    Bag.peek c3After (some "k") = some ⟨1, "k", ⟨⟨3000⟩, ⟨2000⟩, ⟨5000⟩⟩⟩ ∧
    (⟨⟨3000⟩, ⟨2000⟩, ⟨5000⟩⟩ : Budget).priority ≠ c3NewItem.budget.priority := by
  constructor
  case _ =>
    have h1 := putIn_no_old keyedBagOps (Bag.create 1000 10) c3OldItem (by decide)
      (by decide)
    have hc1 : (Bag.putIn keyedBagOps (Bag.create 1000 10) c3OldItem).1.capacity = 1000 :=
      putIn_capacity _ _ _
    have hnt1 : (Bag.putIn keyedBagOps (Bag.create 1000 10) c3OldItem).1.name_table =
        [(some "k", c3OldItem)] := by
      rw [h1.1]; rfl
    have hsz : ¬ (Bag.putIn keyedBagOps (Bag.create 1000 10) c3OldItem).1.capacity <
        Bag.size (Bag.putIn keyedBagOps (Bag.create 1000 10) c3OldItem).1 := by
      rw [hc1]; unfold Bag.size; rw [hnt1]; decide
    have h2 := putIn_with_old keyedBagOps _ c3NewItem c3OldItem hsz (by rw [hnt1]; decide)
    unfold c3After Bag.peek
    rw [h2.1, hnt1]
    rw [merge_eval]
    decide
  case _ => decide







lemma putIn_no_old_full {α : Type} (ops : BagOps α) (b : BagState α) (l : α)
    (hsize : ¬ b.capacity < Bag.size b)
    (hget : Bag.mapGet b.name_table (ops.keyOf l) = none) :
    (Bag.putIn ops b l).1 =
      { Bag.pushAtLevel b (Bag.getLevel ops l) l with
        name_table := Bag.mapSet b.name_table (ops.keyOf l) l } ∧
    (Bag.putIn ops b l).2 = true := by
  unfold Bag.putIn
  dsimp only
  rw [hget]
  dsimp only
  unfold Bag.intoBase
  dsimp only
  rw [if_neg hsize]
  exact ⟨rfl, rfl⟩

lemma putIn_evict {α : Type} (ops : BagOps α) (b : BagState α) (l ev : α)
    (rest : List α) (outLvl : ℕ)
    (hsize : b.capacity < Bag.size b)
    (hget : Bag.mapGet b.name_table (ops.keyOf l) = none)
    (hfind : Bag.findLowestNonEmpty b = outLvl)
    (hnotlt : ¬ Bag.getLevel ops l < outLvl)
    (hhead : b.item_table.getD outLvl [] = ev :: rest) :
    ((Bag.putIn ops b l).1).name_table =
      Bag.mapDelete (Bag.mapSet b.name_table (ops.keyOf l) l) (ops.keyOf ev) ∧
    (Bag.putIn ops b l).2 = !(ops.refOf ev == ops.refOf l) := by
  unfold Bag.putIn
  dsimp only
  rw [hget]
  dsimp only
  unfold Bag.intoBase
  dsimp only
  rw [if_pos hsize, hfind, if_neg hnotlt]
  unfold Bag.takeOutFirst
  rw [hhead]
  dsimp only
  exact ⟨rfl, rfl⟩

lemma c8_level_A : Bag.getLevel keyedBagOps c8ItemA = 49 := by
  norm_num [Bag.getLevel, keyedBagOps, c8ItemA, Budget.priorityQ, ShortFloat.getValue,
    Bag.TOTAL_LEVEL]
  decide

lemma c8_level_B : Bag.getLevel keyedBagOps c8ItemB = 89 := by
  norm_num [Bag.getLevel, keyedBagOps, c8ItemB, Budget.priorityQ, ShortFloat.getValue,
    Bag.TOTAL_LEVEL]
  decide

lemma c8_level_C : Bag.getLevel keyedBagOps c8ItemC = 89 := by
  norm_num [Bag.getLevel, keyedBagOps, c8ItemC, Budget.priorityQ, ShortFloat.getValue,
    Bag.TOTAL_LEVEL]
  decide

lemma c8_state_one : c8PutOne.1 = c8StateOne ∧ c8PutOne.2 = true := by
  have h := putIn_no_old_full keyedBagOps (Bag.create 1 10) c8ItemA (by decide) (by decide)
  unfold c8PutOne
  rw [h.1, c8_level_A]
  refine ⟨?_, h.2⟩
  unfold c8StateOne Bag.pushAtLevel Bag.create Bag.mapSet Bag.TOTAL_LEVEL
  norm_num
  decide



lemma c8_state_two : c8PutTwo.1 = c8StateTwo ∧ c8PutTwo.2 = true := by
  have h := putIn_no_old_full keyedBagOps c8StateOne c8ItemB (by decide) (by decide)
  unfold c8PutTwo
  rw [(c8_state_one).1, h.1, c8_level_B]
  refine ⟨?_, h.2⟩
  unfold c8StateOne c8StateTwo Bag.pushAtLevel Bag.mapSet
  norm_num
  decide

/-- Claim C8 (counterexample): a capacity-1 bag holding one item accepts a
second, higher-priority item with a different key but does NOT emit the
previous item: the capacity test compares the pre-insertion size, so both
items remain in the bag and putIn reports plain success. -/
theorem claim_C8_counterexample :
    c8PutTwo.2 = true ∧
    Bag.peek c8PutTwo.1 (some "a") = some c8ItemA ∧
    Bag.size c8PutTwo.1 = 2 := by
  refine ⟨(c8_state_two).2, ?_, ?_⟩
  case _ => rw [(c8_state_two).1]; decide
  case _ => rw [(c8_state_two).1]; decide

/-- Claim C8 (amended): on the capacity-1 bag the second put-in is accepted
with no eviction, leaving two items; eviction of the lowest-priority item
happens only at the third put-in, and even then putIn only returns a boolean
(the evicted item is dropped, not handed back). -/
theorem claim_C8 :
    (c8PutTwo.2 = true ∧ Bag.peek c8PutTwo.1 (some "a") = some c8ItemA ∧
      Bag.size c8PutTwo.1 = 2) ∧
    (c8PutThree.2 = true ∧ Bag.peek c8PutThree.1 (some "a") = none ∧
      Bag.peek c8PutThree.1 (some "b") = some c8ItemB ∧
      Bag.peek c8PutThree.1 (some "c") = some c8ItemC ∧
      Bag.size c8PutThree.1 = 2) := by
  have h2 := c8_state_two
  have h3 := putIn_evict keyedBagOps c8StateTwo c8ItemC c8ItemA [] 49
    (by decide) (by decide) (by decide) (by rw [c8_level_C]; decide) (by decide)
  refine ⟨⟨h2.2, by rw [h2.1]; decide, by rw [h2.1]; decide⟩, ?_, ?_, ?_, ?_, ?_⟩
  case _ =>
    show c8PutThree.2 = true
    unfold c8PutThree
    rw [h2.1, h3.2]
    decide
  case _ =>
    show Bag.peek c8PutThree.1 (some "a") = none
    unfold c8PutThree Bag.peek
    rw [h2.1, h3.1]
    decide
  case _ =>
    unfold c8PutThree Bag.peek
    rw [h2.1, h3.1]
    decide
  case _ =>
    unfold c8PutThree Bag.peek
    rw [h2.1, h3.1]
    decide
  case _ =>
    unfold c8PutThree Bag.size
    rw [h2.1, h3.1]
    decide

/-- Claim C3 (witness): instantiates claim_C3 on the handcrafted bag holding
the old item. -/
theorem claim_C3_witness :
    Bag.peek ((Bag.putIn keyedBagOps c3WitnessBag c3NewItem).1) (some "k") =
      some { c3NewItem with budget :=
        ⟨c3OldItem.budget.priority,
         ⟨max c3NewItem.budget.durability.val c3OldItem.budget.durability.val⟩,
         ⟨max c3NewItem.budget.quality.val c3OldItem.budget.quality.val⟩⟩ } ∧
    (Bag.putIn keyedBagOps c3WitnessBag c3NewItem).2 = true :=
  claim_C3 c3WitnessBag c3OldItem c3NewItem "k" (by decide) (by decide) (by decide)

/-- Claim C5 (counterexample): with the two-premise rule whose conclusion
literal is a double negation, inferSingleShotOnCurrentFacts emits the
depth-2 conclusion as an explanation and adds its key to the fact set: the
negation-depth guard exists only in the one-premise loop, so the claim fails
for two-premise rules. -/
theorem claim_C5_counterexample :
    (do
      let s1 ← assertFact { rules := [c5Rule], knowledgeBaseStore := [] } "x"
      let s2 ← assertFact s1 "y"
      inferSingleShotOnCurrentFacts s2 true true) =
      Except.ok
        ([{ conclusion := ETerm.negT (.negT (.atomT "a")), ruleApplied := "weird",
            premisesMatched := [.atomT "x", .atomT "y"],
            substitutionUsed := [("S", "x"), ("P", "y")] }],
         { rules := [c5Rule], knowledgeBaseStore := ["x", "y", "(--, (--, a))"] }) ∧
    1 < negationDepth (ETerm.negT (.negT (.atomT "a"))) := by
  decide

/-- Claim C10 (counterexample): asserting the atoms a --> a (an atom, since
only angle-bracketed text parses as a statement) and a, a combining rule
derives the key <a --> a --> a>; that key re-parses, by the engine parser
itself, to the reflexive inheritance <a --> a>, so the fact set does contain
a reflexive inheritance term as soon as facts are read back. -/
theorem claim_C10_counterexample :
    ((["a --> a", "a"].map EngineEvent.assert ++ [EngineEvent.infer true true]).foldl
        applyEvent { rules := [c10Rule], knowledgeBaseStore := [] }).knowledgeBaseStore =
      ["a --> a", "a", "<a --> a --> a>"] ∧
    parseTerm "<a --> a --> a>" = .ok (.stmtT "-->" (.atomT "a") (.atomT "a")) ∧
    isReflexiveInheritance (.stmtT "-->" (.atomT "a") (.atomT "a")) = true := by
  decide


lemma foldl_preserve {β σ : Type} {Inv : σ → Prop} {step : σ → β → σ}
    (h : ∀ s x, Inv s → Inv (step s x)) :
    ∀ (l : List β) (s : σ), Inv s → Inv (l.foldl step s) := by
  intro l
  induction l with
  | nil => intro s hs; exact hs
  | cons x xs ih => intro s hs; exact ih _ (h s x hs)

lemma oneStep_mem (name : String) (inv : Bool) (pat concl fact : ETerm) (acc : InferAcc)
    (e : InferenceExplanation) (he : e ∈ (oneStep name inv pat concl fact acc).expls) :
    e ∈ acc.expls ∨
      (e.premisesMatched = [fact] ∧
        (isNegation e.conclusion && decide (negationDepth e.conclusion > 1)) = false ∧
        isReflexiveInheritance e.conclusion = false) := by
  simp only [oneStep] at he
  split at he
  case _ => exact Or.inl he
  case _ =>
    split at he
    case _ => exact Or.inl he
    case _ =>
      split at he
      case _ => exact Or.inl he
      case _ =>
        split at he
        case _ => exact Or.inl he
        case _ hneg =>
          split at he
          case _ => exact Or.inl he
          case _ hrefl =>
            split at he
            case _ => exact Or.inl he
            case _ =>
              rcases List.mem_append.mp he with h1 | h2
              case _ => exact Or.inl h1
              case _ =>
                right
                have hee := List.mem_singleton.mp h2
                subst hee
                exact ⟨rfl, by simpa using hneg, by simpa using hrefl⟩

lemma oneStep_kb (name : String) (inv : Bool) (pat concl fact : ETerm) (acc : InferAcc)
    (k : String) (hk : k ∈ (oneStep name inv pat concl fact acc).kb) :
    k ∈ acc.kb ∨ FactOk k := by
  simp only [oneStep] at hk
  split at hk
  case _ => exact Or.inl hk
  case _ =>
    split at hk
    case _ => exact Or.inl hk
    case _ =>
      split at hk
      case _ => exact Or.inl hk
      case _ =>
        split at hk
        case _ => exact Or.inl hk
        case _ =>
          split at hk
          case _ => exact Or.inl hk
          case _ hrefl =>
            split at hk
            case _ => exact Or.inl hk
            case _ =>
              rcases List.mem_append.mp hk with h1 | h2
              case _ => exact Or.inl h1
              case _ =>
                exact Or.inr ⟨_, by simpa using hrefl, List.mem_singleton.mp h2⟩

lemma twoStep_mem (name : String) (inv : Bool) (p1 p2 concl f1 f2 : ETerm)
    (acc : InferAcc) (e : InferenceExplanation)
    (he : e ∈ (twoStep name inv p1 p2 concl f1 f2 acc).expls) :
    e ∈ acc.expls ∨
      (e.premisesMatched = [f1, f2] ∧ isReflexiveInheritance e.conclusion = false) := by
  simp only [twoStep] at he
  split at he
  case _ => exact Or.inl he
  case _ =>
    split at he
    case _ => exact Or.inl he
    case _ =>
      split at he
      case _ => exact Or.inl he
      case _ =>
        split at he
        case _ => exact Or.inl he
        case _ hrefl =>
          split at he
          case _ => exact Or.inl he
          case _ =>
            rcases List.mem_append.mp he with h1 | h2
            case _ => exact Or.inl h1
            case _ =>
              right
              have hee := List.mem_singleton.mp h2
              subst hee
              exact ⟨rfl, by simpa using hrefl⟩

lemma twoStep_kb (name : String) (inv : Bool) (p1 p2 concl f1 f2 : ETerm)
    (acc : InferAcc) (k : String)
    (hk : k ∈ (twoStep name inv p1 p2 concl f1 f2 acc).kb) :
    k ∈ acc.kb ∨ FactOk k := by
  simp only [twoStep] at hk
  split at hk
  case _ => exact Or.inl hk
  case _ =>
    split at hk
    case _ => exact Or.inl hk
    case _ =>
      split at hk
      case _ => exact Or.inl hk
      case _ =>
        split at hk
        case _ => exact Or.inl hk
        case _ hrefl =>
          split at hk
          case _ => exact Or.inl hk
          case _ =>
            rcases List.mem_append.mp hk with h1 | h2
            case _ => exact Or.inl h1
            case _ =>
              exact Or.inr ⟨_, by simpa using hrefl, List.mem_singleton.mp h2⟩

def Inv5 (acc : InferAcc) : Prop :=
  ∀ e ∈ acc.expls, e.premisesMatched.length = 1 →
    ¬(isNegation e.conclusion = true ∧ 1 < negationDepth e.conclusion)

lemma oneStep_inv5 (name : String) (inv : Bool) (pat concl fact : ETerm) (acc : InferAcc)
    (h : Inv5 acc) : Inv5 (oneStep name inv pat concl fact acc) := by
  intro e he hlen
  rcases oneStep_mem name inv pat concl fact acc e he with h1 | ⟨_, hneg, _⟩
  case _ => exact h e h1 hlen
  case _ =>
    intro ⟨hn, hd⟩
    rw [hn] at hneg
    simp at hneg
    omega

lemma twoStep_inv5 (name : String) (inv : Bool) (p1 p2 concl f1 f2 : ETerm) (acc : InferAcc)
    (h : Inv5 acc) : Inv5 (twoStep name inv p1 p2 concl f1 f2 acc) := by
  intro e he hlen
  rcases twoStep_mem name inv p1 p2 concl f1 f2 acc e he with h1 | ⟨hp, _⟩
  case _ => exact h e h1 hlen
  case _ => rw [hp] at hlen; simp at hlen

lemma ruleStep_inv5 (a1 a2 : Bool) (snap : List ETerm) (acc : InferAcc)
    (rule : InferenceRule) (h : Inv5 acc) : Inv5 (ruleStep a1 a2 snap acc rule) := by
  unfold ruleStep
  cases rule with
  | twoPremise name inv p1 p2 concl =>
    dsimp only
    split
    case _ => exact h
    case _ =>
      refine foldl_preserve ?_ _ _ h
      intro s i hs
      refine foldl_preserve ?_ _ _ hs
      intro s2 j hs2
      split
      case _ => exact hs2
      case _ => exact twoStep_inv5 _ _ _ _ _ _ _ _ hs2
  | onePremise name inv pat concl =>
    dsimp only
    split
    case _ => exact h
    case _ =>
      refine foldl_preserve ?_ _ _ h
      intro s fact hs
      exact oneStep_inv5 _ _ _ _ _ _ hs

def KBInv (acc : InferAcc) : Prop := ∀ k ∈ acc.kb, FactOk k

lemma ruleStep_kbinv (a1 a2 : Bool) (snap : List ETerm) (acc : InferAcc)
    (rule : InferenceRule) (h : KBInv acc) : KBInv (ruleStep a1 a2 snap acc rule) := by
  unfold ruleStep
  cases rule with
  | twoPremise name inv p1 p2 concl =>
    dsimp only
    split
    case _ => exact h
    case _ =>
      refine foldl_preserve ?_ _ _ h
      intro s i hs
      refine foldl_preserve ?_ _ _ hs
      intro s2 j hs2
      split
      case _ => exact hs2
      case _ =>
        intro k hk
        rcases twoStep_kb _ _ _ _ _ _ _ _ k hk with h1 | h2
        case _ => exact hs2 k h1
        case _ => exact h2
  | onePremise name inv pat concl =>
    dsimp only
    split
    case _ => exact h
    case _ =>
      refine foldl_preserve ?_ _ _ h
      intro s fact hs
      intro k hk
      rcases oneStep_kb _ _ _ _ _ _ k hk with h1 | h2
      case _ => exact hs k h1
      case _ => exact h2

def StateOk (st : EngineState) : Prop := ∀ k ∈ st.knowledgeBaseStore, FactOk k

lemma applyEvent_stateOk (st : EngineState) (ev : EngineEvent) (h : StateOk st) :
    StateOk (applyEvent st ev) := by
  cases ev with
  | assert s =>
    dsimp only [applyEvent]
    cases ha : assertFact st s with
    | error _ => exact h
    | ok st2 =>
      show StateOk st2
      unfold assertFact at ha
      cases hp : parseTerm (String.mk (stripTrailingDot (trimChars s.data))) with
      | error msg =>
        simp only [String.mk, bind, Except.bind, hp] at ha
        exact (Except.noConfusion ha)
      | ok term =>
        simp only [String.mk, bind, Except.bind, hp] at ha
        split at ha
        case _ =>
          simp only [pure, Except.pure, Except.ok.injEq] at ha
          rw [← ha]; exact h
        case _ hrefl =>
          simp only [pure, Except.pure, Except.ok.injEq] at ha
          rw [← ha]
          intro k hk
          unfold setAdd at hk
          split at hk
          case _ => exact h k hk
          case _ =>
            rcases List.mem_append.mp hk with h1 | h2
            case _ => exact h k h1
            case _ =>
              exact ⟨term, by simpa using hrefl, List.mem_singleton.mp h2⟩
  | infer p1 p2 =>
    dsimp only [applyEvent]
    cases hi : inferSingleShotOnCurrentFacts st p1 p2 with
    | error _ => exact h
    | ok r =>
      show StateOk r.2
      unfold inferSingleShotOnCurrentFacts at hi
      cases hsnap : st.knowledgeBaseStore.mapM parseTerm with
      | error msg =>
        simp only [bind, Except.bind, hsnap] at hi
        exact (Except.noConfusion hi)
      | ok snapshot =>
        simp only [bind, Except.bind, pure, Except.pure, Except.ok.injEq, hsnap] at hi
        rw [← hi]
        intro k hk
        refine @foldl_preserve _ _ KBInv _
          (fun s r hs => ruleStep_kbinv p1 p2 snapshot s r hs) _ _ ?_ k hk
        intro k2 hk2
        exact h k2 hk2


/-- C5: single-shot derivation rejects deep-negation conclusions only in the
one-premise loop; every emitted explanation whose premise list has length one
has a conclusion of negation depth at most 1. -/
theorem claim_C5 (state : EngineState) (p1 p2 : Bool)
    (res : List InferenceExplanation) (st2 : EngineState)
    (h : inferSingleShotOnCurrentFacts state p1 p2 = .ok (res, st2)) :
    ∀ e ∈ res, e.premisesMatched.length = 1 →
      ¬(isNegation e.conclusion = true ∧ 1 < negationDepth e.conclusion) := by
  unfold inferSingleShotOnCurrentFacts at h
  cases hsnap : state.knowledgeBaseStore.mapM parseTerm with
  | error msg =>
    simp only [bind, Except.bind, hsnap] at h
    exact (Except.noConfusion h)
  | ok snapshot =>
    simp only [bind, Except.bind, pure, Except.pure, Except.ok.injEq, Prod.mk.injEq, hsnap] at h
    have hres : res = (state.rules.foldl (ruleStep p1 p2 snapshot)
        { kb := state.knowledgeBaseStore, sigs := [], expls := [] }).expls := h.1.symm
    rw [hres]
    refine @foldl_preserve _ _ Inv5 _
      (fun s r hs => ruleStep_inv5 p1 p2 snapshot s r hs) _ _ ?_
    intro e he
    simp at he

/-- Claim C5 (witness): instantiates claim_C5 on the negation-introduction
rule over one fact, whose single-premise conclusion the guard admits at
depth 1. -/
theorem claim_C5_witness :
    ¬(isNegation (ETerm.negT (.atomT "x")) = true ∧
      1 < negationDepth (ETerm.negT (.atomT "x"))) :=
  claim_C5 { rules := [c5NegRule], knowledgeBaseStore := ["x"] } true true
    [{ conclusion := ETerm.negT (.atomT "x"), ruleApplied := "negative",
       premisesMatched := [.atomT "x"], substitutionUsed := [("S", "x")] }]
    { rules := [c5NegRule], knowledgeBaseStore := ["x", "(--, x)"] }
    (by decide)
    { conclusion := ETerm.negT (.atomT "x"), ruleApplied := "negative",
      premisesMatched := [.atomT "x"], substitutionUsed := [("S", "x")] }
    (by decide) (by decide)

/-- C10: every key ever stored in the fact set is the canonical print of
some term that is not a reflexive inheritance; the reflexive guard holds on
every insertion path at the print level. -/
theorem claim_C10 (rules : List InferenceRule) (evs : List EngineEvent) (k : String)
    (hk : k ∈ ((evs.foldl applyEvent
      { rules := rules, knowledgeBaseStore := [] }).knowledgeBaseStore)) :
    FactOk k := by
  refine @foldl_preserve _ _ StateOk _
    (fun st ev hs => applyEvent_stateOk st ev hs) evs
    { rules := rules, knowledgeBaseStore := [] } ?_ k hk
  intro k2 hk2
  simp at hk2

/-- Claim C10 (witness): instantiates claim_C10 on the store reached by
asserting the atom a. -/
theorem claim_C10_witness : FactOk "a" :=
  claim_C10 [] [.assert "a"] "a" (by decide)


lemma trimChars_eq_rdrop (l : List Char) :
    trimChars l = List.rdropWhile Char.isWhitespace (List.dropWhile Char.isWhitespace l) := rfl

lemma trimChars_idem (l : List Char) : trimChars (trimChars l) = trimChars l := by
  rw [trimChars_eq_rdrop, trimChars_eq_rdrop]
  have h1 : List.dropWhile Char.isWhitespace
      (List.rdropWhile Char.isWhitespace (List.dropWhile Char.isWhitespace l)) =
      List.rdropWhile Char.isWhitespace (List.dropWhile Char.isWhitespace l) := by
    rcases hd : List.rdropWhile Char.isWhitespace (List.dropWhile Char.isWhitespace l) with
      _ | ⟨x, xs⟩
    case nil => simp
    case cons =>
      rw [List.dropWhile_eq_self_iff]
      intro hl
      have hpre : x :: xs <+: List.dropWhile Char.isWhitespace l := by
        rw [← hd]; exact List.rdropWhile_prefix _ _
      rcases hpre with ⟨tail, htail⟩
      have hlen : 0 < (List.dropWhile Char.isWhitespace l).length := by
        rw [← htail]; simp
      have hx : ¬Char.isWhitespace ((List.dropWhile Char.isWhitespace l).get ⟨0, hlen⟩) :=
        List.dropWhile_get_zero_not _ _ hlen
      have hx0 : (List.dropWhile Char.isWhitespace l).get ⟨0, hlen⟩ = x := by
        have h2 := List.get_of_eq htail.symm ⟨0, hlen⟩
        simpa using h2
      rw [hx0] at hx
      simpa using hx
  rw [h1, List.rdropWhile_idempotent]

/-- Claim C6 (counterexample): on the empty text the channel raises before
its try block and inputNarsese has no handler, so the error escapes the entry
point instead of becoming a value. -/
theorem claim_C6_counterexample :
    inputNarsese c6Parse c6NoNum c6ParseInt c6MemInput c6Pow c6State "" =
      Except.error "Input text cannot be empty" := rfl

/-- C6: on a non-numeric text that the parser rejects, inputNarsese returns
the value (false, null, null, empty answers) with the state unchanged when
the trimmed text is non-empty, and raises the channel error (uncaught at the
entry point) when it is empty. -/
theorem claim_C6 {mu : Type} (parse : String → Except String (Option NTask))
    (isNumeric : String → Bool) (parseIntNat : String → ℕ)
    (memoryInput : mu → BagState RConcept → NTask → mu × BagState RConcept × List NSentence)
    (jsPow : ℚ → ℚ → ℚ) (st : RState mu) (text msg : String)
    (hnum : isNumeric (String.mk (trimChars text.data)) = false)
    (hparse : parse (String.mk (trimChars text.data)) = Except.error msg) :
    inputNarsese parse isNumeric parseIntNat memoryInput jsPow st text =
      (if trimChars text.data = [] then Except.error "Input text cannot be empty"
       else Except.ok ((false, none, none, some []), st)) := by
  unfold inputNarsese
  simp only [hnum, Bool.and_false, Bool.false_eq_true, if_false]
  unfold channelPut
  simp only [trimChars_idem]
  split
  case _ h =>
    simp [bind, Except.bind, h]
  case _ h =>
    rw [hparse]
    simp [bind, Except.bind, h]

/-- Claim C6 (witness): instantiates claim_C6 on a non-empty text the
always-failing parser rejects. -/
theorem claim_C6_witness :
    inputNarsese c6Parse c6NoNum c6ParseInt c6MemInput c6Pow c6State "garbage" =
      (if trimChars "garbage".data = [] then Except.error "Input text cannot be empty"
       else Except.ok ((false, none, none, some []), c6State)) :=
  claim_C6 c6Parse c6NoNum c6ParseInt c6MemInput c6Pow c6State "garbage"
    "Unexpected token" rfl rfl


lemma cycleDeriveStep_clock {mu : Type} (parse : String → Except String (Option NTask))
    (memoryInput : mu → BagState RConcept → NTask → mu × BagState RConcept × List NSentence)
    (punct : String) (s : RState mu) (r : InferenceExplanation) (s2 : RState mu)
    (h : cycleDeriveStep parse memoryInput punct s r = Except.ok s2) :
    s2.clock = s.clock + 1 := by
  unfold cycleDeriveStep at h
  cases hc : channelPut parse s.clock (formatTerm r.conclusion ++ punct) with
  | error e =>
    simp only [bind, Except.bind, hc] at h
    exact (Except.noConfusion h)
  | ok trip =>
    simp only [bind, Except.bind, hc] at h
    rcases trip with ⟨succ, od, ov⟩
    cases od with
    | none => exact (Except.noConfusion h)
    | some derived =>
      simp only [pure, Except.pure, Except.ok.injEq] at h
      rw [← h]

lemma foldlM_clock {mu : Type} (body : RState mu → InferenceExplanation → Except String (RState mu))
    (hbody : ∀ s r s2, body s r = Except.ok s2 → s2.clock = s.clock + 1) :
    ∀ (l : List InferenceExplanation) (s s2 : RState mu),
      List.foldlM body s l = Except.ok s2 → s2.clock = s.clock + l.length := by
  intro l
  induction l with
  | nil =>
    intro s s2 h
    simp only [List.foldlM, pure, Except.pure, Except.ok.injEq] at h
    rw [← h]
    simp
  | cons x xs ih =>
    intro s s2 h
    simp only [List.foldlM] at h
    cases hb : body s x with
    | error e =>
      rw [hb] at h
      simp only [bind, Except.bind] at h
      exact (Except.noConfusion h)
    | ok s1 =>
      rw [hb] at h
      simp only [bind, Except.bind] at h
      have h1 := ih s1 s2 h
      have h2 := hbody s x s1 hb
      rw [h1, h2]
      simp only [List.length_cons]
      push_cast
      ring

/-- C7: the narsese path of inputNarsese with a parsed task ticks the clock
exactly once, but a completed working cycle ticks it once per derivation:
zero times when the concepts bag yields nothing, and once per emitted
explanation of the single-shot inference otherwise — not exactly once. -/
theorem claim_C7 {mu : Type} (parse : String → Except String (Option NTask))
    (isNumeric : String → Bool) (parseIntNat : String → ℕ)
    (memoryInput : mu → BagState RConcept → NTask → mu × BagState RConcept × List NSentence)
    (jsPow : ℚ → ℚ → ℚ) (st : RState mu) :
    (∀ text succ task ov res st2,
        isNumeric (String.mk (trimChars text.data)) = false →
        channelPut parse st.clock (String.mk (trimChars text.data)) =
          Except.ok (succ, some task, ov) →
        inputNarsese parse isNumeric parseIntNat memoryInput jsPow st text =
          Except.ok (res, st2) →
        st2.clock = st.clock + 1) ∧
    (∀ st2, (Bag.takeOut conceptOps bagOrder st.concepts).2 = none →
        cycle parse memoryInput jsPow st = Except.ok st2 →
        st2.clock = st.clock) ∧
    (∀ concept taskLink nal2 results nal3 st2,
        (Bag.takeOut conceptOps bagOrder st.concepts).2 = some concept →
        (Bag.takeOut rtlOps bagOrder concept.taskLinks).2 = some taskLink →
        assertFact st.nal taskLink.target.sentence.term.name = Except.ok nal2 →
        inferSingleShotOnCurrentFacts nal2 true true = Except.ok (results, nal3) →
        cycle parse memoryInput jsPow st = Except.ok st2 →
        st2.clock = st.clock + results.length) := by
  refine ⟨?_, ?_, ?_⟩
  case _ =>
    intro text succ task ov res st2 hnum hput h
    unfold inputNarsese at h
    simp only [hnum, Bool.and_false, Bool.false_eq_true, if_false] at h
    rw [hput] at h
    simp only [bind, Except.bind, Except.ok.injEq, Prod.mk.injEq] at h
    rw [← h.2]
  case _ =>
    intro st2 hc h
    unfold cycle at h
    rw [hc] at h
    simp only [Except.ok.injEq] at h
    rw [← h]
  case _ =>
    intro concept taskLink nal2 results nal3 st2 hc htl ha hi h
    unfold cycle at h
    rw [hc] at h
    dsimp only at h
    rw [htl] at h
    simp only [bind, Except.bind, ha, hi] at h
    cases hf : List.foldlM (cycleDeriveStep parse memoryInput taskLink.target.sentence.punctuation) { clock := st.clock, concepts := (Bag.takeOut conceptOps bagOrder st.concepts).1, nal := nal3, mem := st.mem } results with
    | error e =>
      rw [hf] at h
      exact (Except.noConfusion h)
    | ok stF =>
      rw [hf] at h
      simp only [Except.ok.injEq] at h
      have hclk := foldlM_clock _ (cycleDeriveStep_clock parse memoryInput
        taskLink.target.sentence.punctuation) results _ stF hf
      rw [← h]
      simpa using hclk

/-- Claim C7 (counterexample): a completed cycle on a state whose concepts
bag is empty returns with the clock untouched, establishing that a completed
working cycle need not advance the clock by one tick. -/
theorem claim_C7_counterexample :
    cycle c7Parse c7MemInput c7Pow c7State = Except.ok c7State ∧ c7State.clock = 5 :=
  ⟨rfl, rfl⟩

/-- Claim C7 (witness): instantiates the narsese-path part of claim_C7 on an
eternal judgment parsed at clock 5. -/
theorem claim_C7_witness :
    ({ w7State with clock := 6 } : RState Unit).clock = w7State.clock + 1 :=
  (claim_C7 w7Parse w7NoNum w7ParseInt w7MemInput w7Pow w7State).1
    "<a --> b>." true w7Derived none (true, some w7Derived, none, some [])
    { w7State with clock := 6 } rfl (by rfl) (by rfl)

end NARS
